import Mathlib

/-!
A shallow embedding of `ws_client::CircularBuffer<T>`
(`include/ws_client/utils/CircularBuffer.hpp`) and of the connection state machine behind
`HasAsyncSocketOperations` (`include/ws_client/concepts_async.hpp`), with proofs about them.

* `size_t` values are natural numbers below `2 ^ 64`; every arithmetic operation of the
  source on `size_t` is modelled with wrap-around (`size_add`, `size_sub`, `size_and`).
* The heap block `buffer` is a `List T`; `buffer[i] = x` is `List.set`, `std::copy` into a
  block is `std_copy`.
* `assert(...)` is modelled as failure: an operation whose assertion fails returns `none`.
* Output parameters (`T& data`, `T* dest`) are passed in and returned.
* Reads and writes outside a block are undefined behaviour in the source; `List.set`,
  `List.getD` and `List.take` leave the data as it is there. No such access happens in a
  well-formed state (`WF`) within the preconditions.
* Allocation is assumed to succeed; the uninitialised content of the block is a parameter.
-/

namespace ws_client

/-! ## `size_t` arithmetic -/

/-- The number of values of a 64-bit `size_t`. -/
def SIZE_MOD : Nat := 2 ^ 64

/-- Wrapping `a + b` on `size_t`. -/
def size_add (a b : Nat) : Nat := (a + b) % SIZE_MOD

/-- Wrapping `a - b` on `size_t`. -/
def size_sub (a b : Nat) : Nat := (a + (SIZE_MOD - b % SIZE_MOD)) % SIZE_MOD

/-- Bitwise `a & b` on `size_t`. -/
def size_and (a b : Nat) : Nat := a &&& b

/-! ## `std::copy` -/

/-- The call `std::copy(src, src + n, dst + off)` where `src` lists the `n` source items:
the items are stored one by one at `dst[off], dst[off + 1], ...`. -/
def std_copy {T : Type} : List T → List T → Nat → List T
  | [], dst, _ => dst
  | x :: xs, dst, off => std_copy xs (dst.set off x) (off + 1)

/-- The items `p[0], ..., p[n - 1]` read through a pointer `p + off` into the block `mem`. -/
def read_range {T : Type} (mem : List T) (off n : Nat) : List T := (mem.drop off).take n

/-! ## The buffer -/

/-- The data members of `CircularBuffer<T>`. -/
structure CircularBuffer (T : Type) where
  buffer : List T
  head : Nat
  tail : Nat
  full_ : Bool
  capacity_ : Nat
deriving DecidableEq

/-- A `std::span<T>` into the storage of a buffer: `span<T>(buffer + start, length)`. -/
structure Span where
  start : Nat
  length : Nat
deriving DecidableEq

/-- Every index of the range `[start, start + length)` lies in `[0, C)`. -/
def Span.inside (s : Span) (C : Nat) : Prop :=
  ∀ j, s.start ≤ j → j < s.start + s.length → j < C

namespace CircularBuffer

variable {T : Type}

/-- The assertion of the constructor: `(capacity & (capacity - 1)) == 0`. -/
def capacity_check (capacity : Nat) : Bool :=
  size_and capacity (size_sub capacity 1) == 0

/-- The constructor `CircularBuffer(capacity)`. `mem` is the content of the block that
`std::malloc(capacity * sizeof(T))` returns, which the constructor does not initialise. -/
def create (capacity : Nat) (mem : List T) : Option (CircularBuffer T) :=
  if capacity_check capacity then
    some { buffer := mem, head := 0, tail := 0, full_ := false, capacity_ := capacity }
  else none

/-- The method `empty()`. -/
def empty (b : CircularBuffer T) : Bool := b.head == b.tail && !b.full_

/-- The method `full()`. -/
def full (b : CircularBuffer T) : Bool := b.full_

/-- The method `clear()`. -/
def clear (b : CircularBuffer T) : CircularBuffer T :=
  { b with head := 0, tail := 0, full_ := false }

/-- The method `size()`. -/
def size (b : CircularBuffer T) : Nat :=
  if !b.full_ then
    if b.head < b.tail then size_sub (size_add b.capacity_ b.head) b.tail
    else size_sub b.head b.tail
  else b.capacity_

/-- The method `available()`. -/
def available (b : CircularBuffer T) : Nat := size_sub b.capacity_ b.size

/-- The method `capacity()`. -/
def capacity (b : CircularBuffer T) : Nat := b.capacity_

/-- The method `push(const T& data)`. -/
def push (b : CircularBuffer T) (data : T) : Option (CircularBuffer T) :=
  if !b.full then
    let buffer := b.buffer.set b.head data
    let head := size_add b.head 1
    let head := size_and head (size_sub b.capacity_ 1)
    some { b with buffer := buffer, head := head, full_ := head == b.tail }
  else none

/-- The method `push(const T* src, size_t len)`; `src` is the block that the pointer refers
to. -/
def push_n (b : CircularBuffer T) (src : List T) (len : Nat) : Option (CircularBuffer T) :=
  if len ≤ b.available then
    let first_copy_n := min len (size_sub b.capacity_ b.head)
    let buffer := std_copy (read_range src 0 first_copy_n) b.buffer b.head
    let len := size_sub len first_copy_n
    let head := size_add b.head first_copy_n
    if len > 0 then
      let buffer := std_copy (read_range src first_copy_n len) buffer 0
      let head := len
      some { b with buffer := buffer, head := head, full_ := head == b.tail }
    else
      let head := size_and head (size_sub b.capacity_ 1)
      some { b with buffer := buffer, head := head, full_ := head == b.tail }
  else none

/-- The method `push(span<const T> src)`. -/
def push_span (b : CircularBuffer T) (src : List T) : Option (CircularBuffer T) :=
  b.push_n src src.length

/-- The method `pop(T& data)`: the returned triple is the result, the value of `data` after
the call and the buffer after the call. -/
def pop (b : CircularBuffer T) (data : T) : Bool × T × CircularBuffer T :=
  if b.empty then (false, data, b)
  else
    let data := b.buffer.getD b.tail data
    let tail := size_add b.tail 1
    let tail := size_and tail (size_sub b.capacity_ 1)
    (true, data, { b with tail := tail, full_ := false })

/-- The method `pop(T* dest, size_t len)`; `dest` is the block that the pointer refers to,
returned with the buffer after the call. -/
def pop_n (b : CircularBuffer T) (dest : List T) (len : Nat) :
    Option (List T × CircularBuffer T) :=
  if len == 0 || b.empty then some (dest, b)
  else if len ≤ b.size then
    let first_copy_n := min len (size_sub b.capacity_ b.tail)
    let dest := std_copy (read_range b.buffer b.tail first_copy_n) dest 0
    let tail := size_add b.tail first_copy_n
    let len := size_sub len first_copy_n
    let tail := size_and tail (size_sub b.capacity_ 1)
    if len > 0 then
      let dest := std_copy (read_range b.buffer 0 len) dest first_copy_n
      let tail := len
      some (dest, { b with tail := tail, full_ := false })
    else
      some (dest, { b with tail := tail, full_ := false })
  else none

/-- The method `available_as_contiguous_span()`. -/
def available_as_contiguous_span (b : CircularBuffer T) : Span :=
  if b.head ≥ b.tail then { start := b.head, length := size_sub b.capacity_ b.head }
  else { start := b.head, length := size_sub b.tail b.head }

/-- The method `used_as_contiguous_span()`. -/
def used_as_contiguous_span (b : CircularBuffer T) : Span :=
  if b.head ≥ b.tail then { start := b.tail, length := size_sub b.head b.tail }
  else { start := b.tail, length := size_sub b.capacity_ b.tail }

/-- The method `move_head(len)`. -/
def move_head (b : CircularBuffer T) (len : Nat) : Option (CircularBuffer T) :=
  if len ≤ b.available then
    let head := size_add b.head len
    let head := size_and head (size_sub b.capacity_ 1)
    some { b with head := head, full_ := head == b.tail }
  else none

/-- The method `move_tail(len)`. -/
def move_tail (b : CircularBuffer T) (len : Nat) : Option (CircularBuffer T) :=
  if len ≤ b.size then
    let tail := size_add b.tail len
    let tail := size_and tail (size_sub b.capacity_ 1)
    some { b with tail := tail, full_ := false }
  else none

/-- The method `peek(T& data)`: the result and the value of `data` after the call. -/
def peek (b : CircularBuffer T) (data : T) : Bool × T :=
  if !b.empty then (true, b.buffer.getD b.tail data) else (false, data)

/-- The storage index that `operator[](index)` refers to, `none` when its assertion
`index < size()` fails. -/
def index_slot (b : CircularBuffer T) (index : Nat) : Option Nat :=
  if index < b.size then
    let ix := size_add b.tail index
    some (size_and ix (size_sub b.capacity_ 1))
  else none

/-- The element that `operator[](index)` refers to. -/
def index_get (b : CircularBuffer T) (index : Nat) : Option T :=
  (b.index_slot index).bind fun ix => b.buffer[ix]?

/-- Well-formed states: the capacity is a power of two that fits `size_t`, the storage has
`capacity_` slots, both cursors are inside the storage and `full_` is only set when the
cursors meet. -/
structure WF (b : CircularBuffer T) : Prop where
  pow2 : ∃ k, k < 64 ∧ b.capacity_ = 2 ^ k
  len : b.buffer.length = b.capacity_
  head_lt : b.head < b.capacity_
  tail_lt : b.tail < b.capacity_
  full_eq : b.full_ = true → b.head = b.tail

/-- The items a buffer holds, oldest first: the `size()` slots from `tail` on, wrapping at
the end of the storage. -/
def contents (b : CircularBuffer T) : List T := (b.buffer.rotate b.tail).take b.size

/-- Calls `push(item)` for each item of the list, in order. -/
def push_all (b : CircularBuffer T) : List T → Option (CircularBuffer T)
  | [] => some b
  | x :: xs => (b.push x).bind fun b' => push_all b' xs

/-- Calls `pop(data)` `n` times on the same variable `data`; lists the result of each call
together with the value of `data` after it. -/
def pop_all (b : CircularBuffer T) (data : T) : Nat → List (Bool × T)
  | 0 => []
  | n + 1 => ((b.pop data).1, (b.pop data).2.1) :: pop_all (b.pop data).2.2 (b.pop data).2.1 n

/-- One call of a mutating method, with its arguments. -/
inductive Op (T : Type) where
  | push (item : T)
  | push_n (src : List T) (len : Nat)
  | pop (item : T)
  | pop_n (dest : List T) (len : Nat)
  | clear
  | move_head (len : Nat)
  | move_tail (len : Nat)

/-- The precondition of a call in the state `b`: a single push only when not full,
`len <= available()` for bulk push and `move_head`, `len <= size()` for bulk pop and
`move_tail`. -/
def Op.pre (b : CircularBuffer T) : Op T → Bool
  | .push _ => !b.full
  | .push_n _ len => decide (len ≤ b.available)
  | .pop _ => true
  | .pop_n _ len => decide (len ≤ b.size)
  | .clear => true
  | .move_head len => decide (len ≤ b.available)
  | .move_tail len => decide (len ≤ b.size)

/-- The buffer after a call, `none` when the call fails an assertion. -/
def Op.apply (b : CircularBuffer T) : Op T → Option (CircularBuffer T)
  | .push item => b.push item
  | .push_n src len => b.push_n src len
  | .pop item => some (b.pop item).2.2
  | .pop_n dest len => (b.pop_n dest len).map Prod.snd
  | .clear => some b.clear
  | .move_head len => b.move_head len
  | .move_tail len => b.move_tail len

/-- The buffer after a sequence of calls. -/
def run (b : CircularBuffer T) : List (Op T) → Option (CircularBuffer T)
  | [] => some b
  | op :: ops => (op.apply b).bind fun b' => run b' ops

/-- Every call of the sequence is made in a state that satisfies its precondition. -/
def PreOK (b : CircularBuffer T) : List (Op T) → Bool
  | [] => true
  | op :: ops =>
    op.pre b && match op.apply b with
      | some b' => PreOK b' ops
      | none => true

/-- One call of `push(item)` or of `pop(item)`. -/
inductive Call (T : Type) where
  | push (item : T)
  | pop (item : T)

/-- The buffer after a sequence of single-item calls, with the number of `pop` calls that
returned `true`; `none` when a `push` is called on a full buffer. -/
def run_calls (b : CircularBuffer T) : List (Call T) → Option (CircularBuffer T × Nat)
  | [] => some (b, 0)
  | .push item :: cs => (b.push item).bind fun b' => run_calls b' cs
  | .pop item :: cs =>
    (run_calls (b.pop item).2.2 cs).map fun r =>
      (r.1, r.2 + if (b.pop item).1 then 1 else 0)

/-- The number of `push` calls in a sequence. -/
def pushes : List (Call T) → Nat
  | [] => 0
  | .push _ :: cs => pushes cs + 1
  | .pop _ :: cs => pushes cs

/-- Copies `items` into the storage through the span `s`: `s[i] = items[i]`. Fails when the
items do not fit the span or the span does not lie inside the storage. -/
def span_write (b : CircularBuffer T) (s : Span) (items : List T) :
    Option (CircularBuffer T) :=
  if items.length ≤ s.length ∧ s.start + s.length ≤ b.buffer.length then
    some { b with buffer := std_copy items b.buffer s.start }
  else none

/-- The items `s[0], ..., s[n - 1]` read through the span `s`. Fails when the span has fewer
than `n` items or does not lie inside the storage. -/
def span_read (b : CircularBuffer T) (s : Span) (n : Nat) : Option (List T) :=
  if n ≤ s.length ∧ s.start + s.length ≤ b.buffer.length then
    some (read_range b.buffer s.start n)
  else none

/-- The two-step window procedure that replaces `push(src, len)`: take
`s1 = available_as_contiguous_span()`, copy the first `n1 = min(len, |s1|)` items of `src`
into it and call `move_head(n1)`; then, if `len - n1 > 0`, take the new
`available_as_contiguous_span()`, copy the remaining `len - n1` items into it and call
`move_head(len - n1)`. -/
def window_push (b : CircularBuffer T) (src : List T) (len : Nat) :
    Option (CircularBuffer T) :=
  let s1 := b.available_as_contiguous_span
  let n1 := min len s1.length
  (b.span_write s1 (read_range src 0 n1)).bind fun b1 =>
  (b1.move_head n1).bind fun b2 =>
  if len - n1 > 0 then
    let s2 := b2.available_as_contiguous_span
    (b2.span_write s2 (read_range src n1 (len - n1))).bind fun b3 =>
    b3.move_head (len - n1)
  else some b2

/-- The two-step window procedure that replaces `pop(dest, len)`: take
`s1 = used_as_contiguous_span()`, copy its first `n1 = min(len, |s1|)` items to `dest` and
call `move_tail(n1)`; then, if `len - n1 > 0`, take the new `used_as_contiguous_span()`,
copy `len - n1` items from it to `dest + n1` and call `move_tail(len - n1)`. -/
def window_pop (b : CircularBuffer T) (dest : List T) (len : Nat) :
    Option (List T × CircularBuffer T) :=
  let s1 := b.used_as_contiguous_span
  let n1 := min len s1.length
  (b.span_read s1 n1).bind fun items1 =>
  let dest1 := std_copy items1 dest 0
  (b.move_tail n1).bind fun b1 =>
  if len - n1 > 0 then
    let s2 := b1.used_as_contiguous_span
    (b1.span_read s2 (len - n1)).bind fun items2 =>
    let dest2 := std_copy items2 dest1 n1
    (b1.move_tail (len - n1)).bind fun b2 => some (dest2, b2)
  else some (dest1, b1)

/-- The storage range that `push(data)` writes: the slot `buffer[head]`. -/
def push_access (b : CircularBuffer T) : List Span :=
  if !b.full then [{ start := b.head, length := 1 }] else []

/-- The storage ranges that the two `std::copy` calls of `push(src, len)` write:
`[head, head + first_copy_n)` and, when items remain, `[0, len)` for the remaining `len`. -/
def push_n_access (b : CircularBuffer T) (len : Nat) : List Span :=
  if len ≤ b.available then
    let first_copy_n := min len (size_sub b.capacity_ b.head)
    let len := size_sub len first_copy_n
    if len > 0 then
      [{ start := b.head, length := first_copy_n }, { start := 0, length := len }]
    else [{ start := b.head, length := first_copy_n }]
  else []

/-- The storage range that `pop(data)` reads: the slot `buffer[tail]`, when not empty. -/
def pop_access (b : CircularBuffer T) : List Span :=
  if b.empty then [] else [{ start := b.tail, length := 1 }]

/-- The storage ranges that the two `std::copy` calls of `pop(dest, len)` read:
`[tail, tail + first_copy_n)` and, when items remain, `[0, len)` for the remaining `len`. -/
def pop_n_access (b : CircularBuffer T) (len : Nat) : List Span :=
  if len == 0 || b.empty then []
  else if len ≤ b.size then
    let first_copy_n := min len (size_sub b.capacity_ b.tail)
    let len := size_sub len first_copy_n
    if len > 0 then
      [{ start := b.tail, length := first_copy_n }, { start := 0, length := len }]
    else [{ start := b.tail, length := first_copy_n }]
  else []

/-- The storage range that `peek(data)` reads: the slot `buffer[tail]`, when not empty. -/
def peek_access (b : CircularBuffer T) : List Span :=
  if !b.empty then [{ start := b.tail, length := 1 }] else []

/-- The storage range that `operator[](index)` refers to: the slot `buffer[ix]`. -/
def index_access (b : CircularBuffer T) (index : Nat) : List Span :=
  match b.index_slot index with
  | some ix => [{ start := ix, length := 1 }]
  | none => []

end CircularBuffer

open CircularBuffer

/-! ## The asynchronous socket contract (`include/ws_client/concepts_async.hpp`)

`HasAsyncSocketOperations` declares the signatures of `read_some`, `write_some`, `shutdown`
and `close`; the sources hold no transport that implements them. The behaviour below is the
connection state machine that the specification describes. -/

/-- Modelled from the spec: the states of a connection, `Open → (read/write)* → Shutdown →
Closed`. The transport implementations (such as `AsioSocket`) are missing from the sources. -/
inductive SocketState where
  | Open
  | Shutdown
  | Closed
deriving DecidableEq

/-- The four operations that `HasAsyncSocketOperations` requires of a transport. -/
inductive SocketOp where
  | read_some
  | write_some
  | shutdown
  | close
deriving DecidableEq

/-- Modelled from the spec: what an operation reports, always as a result value
(`expected<..., WSError>`): success, the harmless "already closed" result of a repeated
call, or an error. -/
inductive SocketResult where
  | ok
  | already_closed
  | error
deriving DecidableEq

/-- A result is harmless when it is success or "already closed". -/
def SocketResult.harmless : SocketResult → Bool
  | .ok => true
  | .already_closed => true
  | .error => false

/-- Modelled from the spec: one operation on a connection, for a transport whose I/O
succeeds. `read_some` and `write_some` keep an open connection open; `shutdown` leads from
`Open` to `Shutdown` and is a self-loop there; `close` leads to `Closed` from every state;
`Closed` is terminal, where `shutdown` and `close` report "already closed". The spec gives
no transition for `read_some` and `write_some` outside `Open`: they report an error and keep
the state. -/
def socket_step : SocketState → SocketOp → SocketState × SocketResult
  | .Open, .read_some => (.Open, .ok)
  | .Open, .write_some => (.Open, .ok)
  | .Open, .shutdown => (.Shutdown, .ok)
  | .Open, .close => (.Closed, .ok)
  | .Shutdown, .read_some => (.Shutdown, .error)
  | .Shutdown, .write_some => (.Shutdown, .error)
  | .Shutdown, .shutdown => (.Shutdown, .ok)
  | .Shutdown, .close => (.Closed, .ok)
  | .Closed, .read_some => (.Closed, .error)
  | .Closed, .write_some => (.Closed, .error)
  | .Closed, .shutdown => (.Closed, .already_closed)
  | .Closed, .close => (.Closed, .already_closed)

/-- The state after a sequence of operations, with the result of each. -/
def socket_run : SocketState → List SocketOp → SocketState × List SocketResult
  | s, [] => (s, [])
  | s, op :: ops =>
    ((socket_run (socket_step s op).1 ops).1,
      (socket_step s op).2 :: (socket_run (socket_step s op).1 ops).2)

/-! ## Arithmetic facts -/

theorem SIZE_MOD_eq : SIZE_MOD = 18446744073709551616 := by
  norm_num [SIZE_MOD]

theorem size_add_eq {a b : Nat} (h : a + b < SIZE_MOD) : size_add a b = a + b := by
  unfold size_add
  exact Nat.mod_eq_of_lt h

theorem size_sub_eq {a b : Nat} (hb : b ≤ a) (ha : a < SIZE_MOD) : size_sub a b = a - b := by
  unfold size_sub
  rw [SIZE_MOD_eq] at *
  omega

theorem pow2_bounds {C k : Nat} (hk : k < 64) (hC : C = 2 ^ k) : 0 < C ∧ 2 * C ≤ SIZE_MOD := by
  subst hC
  refine ⟨Nat.pos_pow_of_pos k (by norm_num), ?_⟩
  have h1 : 2 * 2 ^ k = 2 ^ (k + 1) := by rw [pow_succ]; ring
  rw [h1, SIZE_MOD]
  exact Nat.pow_le_pow_right (by norm_num) (by omega)

theorem size_and_mask {C k : Nat} (hk : k < 64) (hC : C = 2 ^ k) (x : Nat) :
    size_and x (size_sub C 1) = x % C := by
  have hb := pow2_bounds hk hC
  rw [size_sub_eq (by omega) (by omega)]
  subst hC
  exact Nat.and_pow_two_sub_one_eq_mod x k

theorem mod_wrap {C a : Nat} (h : a < 2 * C) : a % C = if a < C then a else a - C := by
  split
  · exact Nat.mod_eq_of_lt (by assumption)
  · rw [Nat.mod_eq_sub_mod (by omega)]
    exact Nat.mod_eq_of_lt (by omega)

/-! ## Queries in a well-formed state -/

namespace CircularBuffer

variable {T : Type}

theorem WF.cap_pos {b : CircularBuffer T} (h : b.WF) : 0 < b.capacity_ := by
  obtain ⟨k, hk, hC⟩ := h.pow2
  exact (pow2_bounds hk hC).1

theorem WF.cap_le {b : CircularBuffer T} (h : b.WF) : 2 * b.capacity_ ≤ SIZE_MOD := by
  obtain ⟨k, hk, hC⟩ := h.pow2
  exact (pow2_bounds hk hC).2

theorem WF.mask {b : CircularBuffer T} (h : b.WF) (x : Nat) :
    size_and x (size_sub b.capacity_ 1) = x % b.capacity_ := by
  obtain ⟨k, hk, hC⟩ := h.pow2
  exact size_and_mask hk hC x

theorem WF.size_eq {b : CircularBuffer T} (h : b.WF) :
    b.size = if b.full_ = true then b.capacity_
      else if b.head < b.tail then b.capacity_ + b.head - b.tail else b.head - b.tail := by
  have h1 := h.cap_le
  have h2 := h.head_lt
  have h3 := h.tail_lt
  unfold size
  cases hf : b.full_
  · simp only [Bool.not_false, if_true, Bool.false_eq_true, if_false]
    split
    · rw [size_add_eq (by omega), size_sub_eq (by omega) (by omega)]
    · rw [size_sub_eq (by omega) (by omega)]
  · simp

theorem WF.size_le {b : CircularBuffer T} (h : b.WF) : b.size ≤ b.capacity_ := by
  have h2 := h.head_lt
  have h3 := h.tail_lt
  rw [h.size_eq]
  split
  · exact le_refl _
  · split <;> omega

theorem WF.available_eq {b : CircularBuffer T} (h : b.WF) :
    b.available = b.capacity_ - b.size := by
  have h1 := h.cap_le
  have h2 := h.cap_pos
  unfold available
  rw [size_sub_eq h.size_le (by omega)]

theorem WF.size_lt_of_not_full {b : CircularBuffer T} (h : b.WF) (hf : b.full_ = false) :
    b.size < b.capacity_ := by
  have h2 := h.head_lt
  have h3 := h.tail_lt
  rw [h.size_eq, hf]
  simp only [Bool.false_eq_true, if_false]
  split <;> omega

end CircularBuffer

/-! ## The operations in a well-formed state, without wrap-around arithmetic -/

namespace CircularBuffer

variable {T : Type}

theorem WF.push_eq {b : CircularBuffer T} (h : b.WF) (hf : b.full_ = false) (x : T) :
    b.push x = some { b with
      buffer := b.buffer.set b.head x
      head := (b.head + 1) % b.capacity_
      full_ := (b.head + 1) % b.capacity_ == b.tail } := by
  have h1 := h.cap_le
  have h2 := h.head_lt
  unfold push full
  simp only [hf, Bool.not_false, if_true]
  rw [h.mask, size_add_eq (by omega)]

theorem WF.move_head_eq {b : CircularBuffer T} (h : b.WF) {len : Nat}
    (hl : len ≤ b.available) :
    b.move_head len = some { b with
      head := (b.head + len) % b.capacity_
      full_ := (b.head + len) % b.capacity_ == b.tail } := by
  have h1 := h.cap_le
  have h2 := h.head_lt
  have h3 := h.size_le
  have h4 := h.available_eq
  unfold move_head
  simp only [hl, if_true]
  rw [h.mask, size_add_eq (by omega)]

theorem WF.move_tail_eq {b : CircularBuffer T} (h : b.WF) {len : Nat}
    (hl : len ≤ b.size) :
    b.move_tail len = some { b with
      tail := (b.tail + len) % b.capacity_
      full_ := false } := by
  have h1 := h.cap_le
  have h2 := h.tail_lt
  have h3 := h.size_le
  unfold move_tail
  simp only [hl, if_true]
  rw [h.mask, size_add_eq (by omega)]

theorem WF.pop_eq {b : CircularBuffer T} (h : b.WF) (he : b.empty = false) (d : T) :
    b.pop d = (true, b.buffer.getD b.tail d,
      { b with tail := (b.tail + 1) % b.capacity_, full_ := false }) := by
  have h1 := h.cap_le
  have h2 := h.tail_lt
  unfold pop
  simp only [he, Bool.false_eq_true, if_false]
  rw [h.mask, size_add_eq (by omega)]

theorem std_copy_nil (dst : List T) (off : Nat) : std_copy [] dst off = dst := rfl

theorem read_range_zero (mem : List T) (off : Nat) : read_range mem off 0 = [] := by
  simp [read_range]

theorem WF.push_n_eq {b : CircularBuffer T} (h : b.WF) (src : List T) {len : Nat}
    (hl : len ≤ b.available) :
    b.push_n src len = some { b with
      buffer := std_copy (read_range src (min len (b.capacity_ - b.head))
          (len - min len (b.capacity_ - b.head)))
        (std_copy (read_range src 0 (min len (b.capacity_ - b.head))) b.buffer b.head) 0
      head := (b.head + len) % b.capacity_
      full_ := (b.head + len) % b.capacity_ == b.tail } := by
  have h1 := h.cap_le
  have h2 := h.head_lt
  have h3 := h.size_le
  have h4 := h.available_eq
  have e1 : size_sub b.capacity_ b.head = b.capacity_ - b.head :=
    size_sub_eq (by omega) (by omega)
  have hw := @mod_wrap b.capacity_ (b.head + len) (by omega)
  unfold push_n
  simp only [hl, if_true, e1]
  rw [size_sub_eq (Nat.min_le_left _ _) (by omega), h.mask,
    size_add_eq (by have := Nat.min_le_right len (b.capacity_ - b.head); omega)]
  by_cases hr : len - min len (b.capacity_ - b.head) > 0
  · have hm : min len (b.capacity_ - b.head) = b.capacity_ - b.head := by omega
    have e2 : (b.head + len) % b.capacity_ = len - min len (b.capacity_ - b.head) := by
      rw [hw, hm]; split <;> omega
    simp only [hr, if_true, e2]
  · have hm : min len (b.capacity_ - b.head) = len := by omega
    have e0 : len - min len (b.capacity_ - b.head) = 0 := by omega
    simp only [hm, Nat.sub_self, gt_iff_lt, lt_self_iff_false, if_false, read_range_zero,
      std_copy_nil]

end CircularBuffer

/-! ## Block copies -/

section copy

variable {T : Type}

theorem length_std_copy (src dst : List T) (off : Nat) :
    (std_copy src dst off).length = dst.length := by
  induction src generalizing dst off with
  | nil => rfl
  | cons x xs ih => simp [std_copy, ih]

theorem getElem?_std_copy (src dst : List T) (off j : Nat) :
    (std_copy src dst off)[j]? =
      if off ≤ j ∧ j < off + src.length ∧ j < dst.length then src[j - off]? else dst[j]? := by
  induction src generalizing dst off with
  | nil =>
    rw [std_copy, if_neg]
    intro hh
    simp only [List.length_nil, Nat.add_zero] at hh
    omega
  | cons x xs ih =>
    rw [std_copy, ih, List.length_set, List.getElem?_set, List.length_cons]
    by_cases h1 : off + 1 ≤ j
    · have e : j - off = (j - (off + 1)) + 1 := by omega
      rw [e, List.getElem?_cons_succ]
      have hne : ¬ off = j := by omega
      simp only [hne, if_false]
      by_cases h2 : j < off + 1 + xs.length ∧ j < dst.length
      · rw [if_pos ⟨h1, h2⟩, if_pos ⟨by omega, by omega, h2.2⟩]
      · rw [if_neg (fun hh => h2 hh.2), if_neg (fun hh => h2 ⟨by omega, hh.2.2⟩)]
    · rw [if_neg (fun hh => h1 hh.1)]
      by_cases h3 : off = j
      · subst h3
        simp only [if_true, Nat.sub_self, List.getElem?_cons_zero]
        by_cases h4 : off < dst.length
        · rw [if_pos h4, if_pos ⟨le_refl _, by omega, h4⟩]
        · rw [if_neg h4, if_neg (fun hh => h4 hh.2.2)]
          exact (List.getElem?_eq_none (by omega)).symm
      · rw [if_neg h3, if_neg (fun hh => by omega)]

theorem length_read_range (mem : List T) (off n : Nat) :
    (read_range mem off n).length = min n (mem.length - off) := by
  simp [read_range]

theorem getElem?_read_range (mem : List T) (off n i : Nat) :
    (read_range mem off n)[i]? = if i < n then mem[off + i]? else none := by
  simp [read_range, List.getElem?_take, List.getElem?_drop]

end copy

/-! ## Bulk pop and preservation of well-formedness -/

namespace CircularBuffer

variable {T : Type}

theorem WF.empty_eq {b : CircularBuffer T} (h : b.WF) : b.empty = decide (b.size = 0) := by
  have h1 := h.cap_pos
  have h2 := h.head_lt
  have h3 := h.tail_lt
  rw [h.size_eq]
  unfold empty
  cases hf : b.full_
  · simp only [Bool.not_false, Bool.and_true, Bool.false_eq_true, if_false]
    by_cases e : b.head = b.tail
    · simp [e]
    · have : ¬ (if b.head < b.tail then b.capacity_ + b.head - b.tail
          else b.head - b.tail) = 0 := by split <;> omega
      simp [e, this]
  · have : ¬ b.capacity_ = 0 := by omega
    simp [this]

theorem WF.pop_n_eq {b : CircularBuffer T} (h : b.WF) (dest : List T) {len : Nat}
    (hl : len ≤ b.size) (h0 : len ≠ 0) :
    b.pop_n dest len = some
      (std_copy (read_range b.buffer 0 (len - min len (b.capacity_ - b.tail)))
          (std_copy (read_range b.buffer b.tail (min len (b.capacity_ - b.tail))) dest 0)
          (min len (b.capacity_ - b.tail)),
        { b with tail := (b.tail + len) % b.capacity_, full_ := false }) := by
  have h1 := h.cap_le
  have h2 := h.tail_lt
  have h3 := h.size_le
  have e1 : size_sub b.capacity_ b.tail = b.capacity_ - b.tail :=
    size_sub_eq (by omega) (by omega)
  have hw := @mod_wrap b.capacity_ (b.tail + len) (by omega)
  have he : b.empty = false := by
    rw [h.empty_eq]
    exact decide_eq_false (by omega)
  have hz : (len == 0) = false := by simpa using h0
  unfold pop_n
  simp only [hz, he, Bool.or_self, Bool.false_eq_true, if_false, hl, if_true, e1]
  rw [size_sub_eq (Nat.min_le_left _ _) (by omega), h.mask,
    size_add_eq (by have := Nat.min_le_right len (b.capacity_ - b.tail); omega)]
  by_cases hr : len - min len (b.capacity_ - b.tail) > 0
  · have hm : min len (b.capacity_ - b.tail) = b.capacity_ - b.tail := by omega
    have e2 : (b.tail + len) % b.capacity_ = len - min len (b.capacity_ - b.tail) := by
      rw [hw, hm]; split <;> omega
    simp only [hr, if_true, e2]
  · have hm : min len (b.capacity_ - b.tail) = len := by omega
    simp only [hm, Nat.sub_self, gt_iff_lt, lt_self_iff_false, if_false, read_range_zero,
      std_copy_nil]

theorem WF.update {b : CircularBuffer T} (h : b.WF) {buf : List T} {hd tl : Nat} {f : Bool}
    (hb : buf.length = b.capacity_) (hh : hd < b.capacity_) (ht : tl < b.capacity_)
    (hf : f = true → hd = tl) :
    WF { b with buffer := buf, head := hd, tail := tl, full_ := f } :=
  ⟨h.pow2, hb, hh, ht, hf⟩

theorem WF.push_wf {b b' : CircularBuffer T} (h : b.WF) {x : T} (hp : b.push x = some b') :
    b'.WF := by
  have h1 := h.cap_pos
  by_cases hf : b.full_ = false
  · rw [h.push_eq hf] at hp
    cases hp
    exact h.update (by simp [h.len]) (Nat.mod_lt _ h1) h.tail_lt (by simp)
  · simp [push, full, hf] at hp

theorem WF.push_n_wf {b b' : CircularBuffer T} (h : b.WF) {src : List T} {len : Nat}
    (hp : b.push_n src len = some b') : b'.WF := by
  have h1 := h.cap_pos
  by_cases hl : len ≤ b.available
  · rw [h.push_n_eq src hl] at hp
    cases hp
    exact h.update (by simp [length_std_copy, h.len]) (Nat.mod_lt _ h1) h.tail_lt (by simp)
  · simp [push_n, hl] at hp

theorem WF.move_head_wf {b b' : CircularBuffer T} (h : b.WF) {len : Nat}
    (hp : b.move_head len = some b') : b'.WF := by
  have h1 := h.cap_pos
  by_cases hl : len ≤ b.available
  · rw [h.move_head_eq hl] at hp
    cases hp
    exact h.update h.len (Nat.mod_lt _ h1) h.tail_lt (by simp)
  · simp [move_head, hl] at hp

theorem WF.move_tail_wf {b b' : CircularBuffer T} (h : b.WF) {len : Nat}
    (hp : b.move_tail len = some b') : b'.WF := by
  have h1 := h.cap_pos
  by_cases hl : len ≤ b.size
  · rw [h.move_tail_eq hl] at hp
    cases hp
    exact h.update h.len h.head_lt (Nat.mod_lt _ h1) (by simp)
  · simp [move_tail, hl] at hp

theorem WF.pop_wf {b : CircularBuffer T} (h : b.WF) (d : T) : (b.pop d).2.2.WF := by
  have h1 := h.cap_pos
  cases he : b.empty
  · rw [h.pop_eq he]
    exact h.update h.len h.head_lt (Nat.mod_lt _ h1) (by simp)
  · simp [pop, he, h]

theorem WF.pop_n_wf {b : CircularBuffer T} (h : b.WF) {dest dest' : List T} {len : Nat}
    {b' : CircularBuffer T} (hp : b.pop_n dest len = some (dest', b')) : b'.WF := by
  have h1 := h.cap_pos
  by_cases hq : len = 0 ∨ b.empty = true
  · have : (len == 0 || b.empty) = true := by
      rcases hq with hq | hq <;> simp [hq]
    simp only [pop_n, this, if_true, Option.some.injEq, Prod.mk.injEq] at hp
    rw [← hp.2]
    exact h
  · have h0 : len ≠ 0 := fun e => hq (Or.inl e)
    by_cases hl : len ≤ b.size
    · rw [h.pop_n_eq dest hl h0] at hp
      cases hp
      exact h.update h.len h.head_lt (Nat.mod_lt _ h1) (by simp)
    · have he : b.empty = false := by
        cases hb : b.empty
        · rfl
        · exact absurd (Or.inr hb) hq
      simp [pop_n, h0, he, hl] at hp

theorem WF.clear_wf {b : CircularBuffer T} (h : b.WF) : b.clear.WF :=
  h.update h.len h.cap_pos h.cap_pos (by simp)

end CircularBuffer

/-! ## The stored items, oldest first -/

namespace CircularBuffer

variable {T : Type}

theorem WF.length_contents {b : CircularBuffer T} (h : b.WF) : b.contents.length = b.size := by
  have := h.size_le
  have := h.len
  simp only [contents, List.length_take, List.length_rotate]
  omega

theorem WF.getElem?_contents {b : CircularBuffer T} (h : b.WF) (i : Nat) :
    b.contents[i]? = if i < b.size then b.buffer[(b.tail + i) % b.capacity_]? else none := by
  have h1 := h.size_le
  have h2 := h.len
  unfold contents
  rw [List.getElem?_take]
  split
  · rw [List.getElem?_rotate (by omega), h2, Nat.add_comm]
  · rfl

theorem WF.push_size {b b' : CircularBuffer T} (h : b.WF) {x : T}
    (hp : b.push x = some b') : b'.size = b.size + 1 := by
  have hw' := h.push_wf hp
  have h1 := h.cap_pos
  have h2 := h.head_lt
  have h3 := h.tail_lt
  by_cases hf : b.full_ = false
  · rw [h.push_eq hf] at hp
    cases hp
    have hw := @mod_wrap b.capacity_ (b.head + 1) (by omega)
    rw [hw'.size_eq, h.size_eq, hf]
    simp only [Bool.false_eq_true, if_false, beq_iff_eq]
    rw [hw]
    split_ifs <;> omega
  · simp [push, full, hf] at hp

theorem WF.pop_size {b : CircularBuffer T} (h : b.WF) (he : b.empty = false) (d : T) :
    (b.pop d).2.2.size + 1 = b.size := by
  have hw' := h.pop_wf d
  have h1 := h.cap_pos
  have h2 := h.head_lt
  have h3 := h.tail_lt
  have hs := h.empty_eq
  rw [he] at hs
  have hs0 : b.size ≠ 0 := by
    intro e
    rw [e] at hs
    simp at hs
  revert hw'
  rw [h.pop_eq he]
  intro hw'
  have hw := @mod_wrap b.capacity_ (b.tail + 1) (by omega)
  rw [hw'.size_eq]
  rw [h.size_eq] at hs0 ⊢
  simp only [Bool.false_eq_true, if_false]
  rw [hw]
  cases hf : b.full_
  · rw [hf] at hs0
    simp only [Bool.false_eq_true, if_false] at hs0 ⊢
    split_ifs at hs0 ⊢ <;> omega
  · have h4 := h.full_eq hf
    simp only [if_true]
    split_ifs <;> omega

theorem WF.push_contents {b b' : CircularBuffer T} (h : b.WF) {x : T}
    (hp : b.push x = some b') : b'.contents = b.contents ++ [x] := by
  have hw' := h.push_wf hp
  have hsz := h.push_size hp
  have h1 := h.cap_pos
  have h2 := h.head_lt
  have h3 := h.tail_lt
  have h5 := h.len
  by_cases hf : b.full_ = false
  · have hlt := h.size_lt_of_not_full hf
    have hse := h.size_eq
    rw [hf] at hse
    simp only [Bool.false_eq_true, if_false] at hse
    rw [h.push_eq hf] at hp
    cases hp
    apply List.ext_getElem?
    intro i
    rw [hw'.getElem?_contents, hsz, List.getElem?_append, h.length_contents,
      h.getElem?_contents]
    have hw := @mod_wrap b.capacity_ (b.tail + i)
    simp only [List.getElem?_set]
    by_cases hi : i < b.size
    · have hne : ¬ b.head = (b.tail + i) % b.capacity_ := by
        rw [hw (by omega)]
        split_ifs at hse ⊢ <;> omega
      rw [if_pos (by omega), if_neg hne, if_pos hi, if_pos hi]
    · rw [if_neg hi]
      by_cases hi2 : i = b.size
      · have he : b.head = (b.tail + i) % b.capacity_ := by
          rw [hw (by omega)]
          split_ifs at hse ⊢ <;> omega
        rw [if_pos (by omega), if_pos he, if_pos (by omega), hi2]
        simp
      · rw [if_neg (by omega)]
        exact (List.getElem?_eq_none (by simp; omega)).symm
  · simp [push, full, hf] at hp

theorem WF.pop_contents {b : CircularBuffer T} (h : b.WF) {x : T} {xs : List T}
    (hc : b.contents = x :: xs) (d : T) :
    (b.pop d).1 = true ∧ (b.pop d).2.1 = x ∧ (b.pop d).2.2.contents = xs := by
  have hw' := h.pop_wf d
  have h1 := h.cap_pos
  have h3 := h.tail_lt
  have hl := h.length_contents
  rw [hc, List.length_cons] at hl
  have he : b.empty = false := by
    rw [h.empty_eq]
    exact decide_eq_false (by omega)
  have hsz := h.pop_size he d
  have h0 := h.getElem?_contents 0
  rw [hc, if_pos (by omega), Nat.add_zero, Nat.mod_eq_of_lt h3] at h0
  simp only [List.getElem?_cons_zero] at h0
  refine ⟨by rw [h.pop_eq he], ?_, ?_⟩
  · rw [h.pop_eq he]
    simp [List.getD, ← h0]
  · apply List.ext_getElem?
    intro i
    have hi := h.getElem?_contents (i + 1)
    rw [hc, List.getElem?_cons_succ] at hi
    rw [hi, hw'.getElem?_contents]
    have hs' : (b.pop d).2.2.size = b.size - 1 := by omega
    rw [hs']
    rw [h.pop_eq he]
    simp only
    have e : ((b.tail + 1) % b.capacity_ + i) % b.capacity_
        = (b.tail + (i + 1)) % b.capacity_ := by
      rw [Nat.mod_add_mod]
      congr 1
      omega
    rw [e]
    by_cases hlt : i + 1 < b.size
    · rw [if_pos (by omega), if_pos hlt]
    · rw [if_neg (by omega), if_neg hlt]

theorem WF.pop_empty {b : CircularBuffer T} (he : b.empty = true) (d : T) :
    b.pop d = (false, d, b) := by
  simp [pop, he]

end CircularBuffer

/-! ## FIFO order -/

namespace CircularBuffer

variable {T : Type}

theorem WF.not_full_of_size_lt {b : CircularBuffer T} (h : b.WF) (hs : b.size < b.capacity_) :
    b.full_ = false := by
  cases hf : b.full_
  · rfl
  · rw [h.size_eq, hf] at hs
    simp at hs

theorem WF.push_all_contents {b : CircularBuffer T} (h : b.WF) (items : List T)
    (hs : b.size + items.length ≤ b.capacity_) :
    ∃ b', b.push_all items = some b' ∧ b'.WF ∧ b'.capacity_ = b.capacity_ ∧
      b'.contents = b.contents ++ items := by
  induction items generalizing b with
  | nil => exact ⟨b, rfl, h, rfl, by simp⟩
  | cons x xs ih =>
    rw [List.length_cons] at hs
    have hf := h.not_full_of_size_lt (by omega)
    have hp := h.push_eq hf x
    have hw1 := h.push_wf hp
    have hs1 := h.push_size hp
    have hc1 := h.push_contents hp
    obtain ⟨b', e1, e2, e3, e4⟩ := ih hw1 (by rw [hs1]; simp only; omega)
    refine ⟨b', ?_, e2, e3, ?_⟩
    · rw [push_all, hp]
      exact e1
    · rw [e4, hc1]
      simp

theorem WF.pop_all_contents {b : CircularBuffer T} (h : b.WF) (d : T) (n : Nat)
    (hn : n ≤ b.contents.length) :
    b.pop_all d n = (b.contents.take n).map fun x => (true, x) := by
  induction n generalizing b d with
  | zero => simp [pop_all]
  | succ n ih =>
    cases hc : b.contents with
    | nil => rw [hc] at hn; simp at hn
    | cons x xs =>
      obtain ⟨p1, p2, p3⟩ := h.pop_contents hc d
      rw [hc, List.length_cons] at hn
      rw [pop_all, p1, p2, ih (h.pop_wf d) x (by rw [p3]; omega), p3]
      simp

theorem WF.contents_of_empty {b : CircularBuffer T} (hht : b.head = b.tail)
    (hnf : b.full_ = false) : b.size = 0 ∧ b.contents = [] := by
  have hs : b.size = 0 := by
    simp [size, hnf, hht, size_sub, SIZE_MOD]
    omega
  exact ⟨hs, by simp [contents, hs]⟩

/-- C1: in an empty well-formed buffer (cursors equal at any position, `full_` unset),
pushing at most `capacity_` items one by one succeeds, and popping as many items afterwards
returns `true` every time and delivers the items in the order they were pushed. -/
theorem fifo_order (b : CircularBuffer T) (hwf : b.WF) (hht : b.head = b.tail)
    (hnf : b.full_ = false) (items : List T) (hN : items.length ≤ b.capacity_) (d : T) :
    ∃ b', b.push_all items = some b' ∧
      b'.pop_all d items.length = items.map fun x => (true, x) := by
  obtain ⟨hs, hc⟩ := WF.contents_of_empty hht hnf
  obtain ⟨b', e1, e2, _, e4⟩ := hwf.push_all_contents items (by omega)
  refine ⟨b', e1, ?_⟩
  rw [e2.pop_all_contents d _ (by rw [e4, hc]; simp), e4, hc]
  simp

theorem fifo_order_witness :
    (∃ b' : CircularBuffer Nat,
      push_all { buffer := [0, 0, 0, 0], head := 3, tail := 3, full_ := false, capacity_ := 4 }
        [1, 2, 3] = some b' ∧
      b'.pop_all 0 3 = [(true, 1), (true, 2), (true, 3)]) :=
  fifo_order { buffer := [0, 0, 0, 0], head := 3, tail := 3, full_ := false, capacity_ := 4 }
    ⟨⟨2, by decide, rfl⟩, rfl, by decide, by decide, by simp⟩ rfl rfl [1, 2, 3] (by decide) 0

end CircularBuffer

/-! ## States reachable from construction -/

namespace CircularBuffer

variable {T : Type}

theorem capacity_check_pow2 {C k : Nat} (hk : k < 64) (hC : C = 2 ^ k) :
    capacity_check C = true := by
  have := (pow2_bounds hk hC).1
  unfold capacity_check
  rw [size_and_mask hk hC, Nat.mod_self]
  rfl

theorem create_wf {C k : Nat} (hk : k < 64) (hC : C = 2 ^ k) {mem : List T}
    (hmem : mem.length = C) :
    ∃ b, create C mem = some b ∧ b.WF ∧ b.capacity_ = C ∧ b.head = 0 ∧ b.tail = 0 ∧
      b.full_ = false ∧ b.buffer = mem := by
  have := (pow2_bounds hk hC).1
  refine ⟨_, by rw [create, if_pos (capacity_check_pow2 hk hC)],
    ⟨⟨k, hk, hC⟩, hmem, this, this, by simp⟩, rfl, rfl, rfl, rfl, rfl⟩

theorem WF.apply_wf {b b' : CircularBuffer T} (h : b.WF) {op : Op T}
    (ha : op.apply b = some b') : b'.WF ∧ b'.capacity_ = b.capacity_ := by
  cases op with
  | push item =>
    refine ⟨h.push_wf ha, ?_⟩
    simp only [Op.apply, push] at ha
    split at ha
    · cases ha; rfl
    · cases ha
  | push_n src len =>
    refine ⟨h.push_n_wf ha, ?_⟩
    simp only [Op.apply, push_n] at ha
    split at ha
    · split at ha <;> (cases ha; rfl)
    · cases ha
  | pop item =>
    simp only [Op.apply, Option.some.injEq] at ha
    subst ha
    refine ⟨h.pop_wf item, ?_⟩
    unfold pop
    split <;> rfl
  | pop_n dest len =>
    simp only [Op.apply, Option.map_eq_some', Prod.exists, exists_eq_right] at ha
    obtain ⟨dest', ha⟩ := ha
    refine ⟨h.pop_n_wf ha, ?_⟩
    simp only [pop_n] at ha
    split at ha
    · cases ha; rfl
    · split at ha
      · split at ha <;> (cases ha; rfl)
      · cases ha
  | clear =>
    simp only [Op.apply, Option.some.injEq] at ha
    subst ha
    exact ⟨h.clear_wf, rfl⟩
  | move_head len =>
    refine ⟨h.move_head_wf ha, ?_⟩
    simp only [Op.apply, move_head] at ha
    split at ha
    · cases ha; rfl
    · cases ha
  | move_tail len =>
    refine ⟨h.move_tail_wf ha, ?_⟩
    simp only [Op.apply, move_tail] at ha
    split at ha
    · cases ha; rfl
    · cases ha

theorem WF.apply_some {b : CircularBuffer T} (h : b.WF) {op : Op T}
    (hp : op.pre b = true) : ∃ b', op.apply b = some b' := by
  cases op with
  | push item => exact ⟨_, h.push_eq (by simpa [Op.pre, full] using hp) item⟩
  | push_n src len => exact ⟨_, h.push_n_eq src (by simpa [Op.pre] using hp)⟩
  | pop item => exact ⟨_, rfl⟩
  | pop_n dest len =>
    have hp' : len ≤ b.size := by simpa [Op.pre] using hp
    by_cases h0 : len = 0
    · exact ⟨b, by simp [Op.apply, pop_n, h0]⟩
    · exact ⟨_, by simp only [Op.apply, h.pop_n_eq dest hp' h0]; rfl⟩
  | clear => exact ⟨_, rfl⟩
  | move_head len => exact ⟨_, h.move_head_eq (by simpa [Op.pre] using hp)⟩
  | move_tail len => exact ⟨_, h.move_tail_eq (by simpa [Op.pre] using hp)⟩

theorem WF.run_wf {b : CircularBuffer T} (h : b.WF) (ops : List (Op T))
    (hp : b.PreOK ops = true) :
    ∃ b', b.run ops = some b' ∧ b'.WF ∧ b'.capacity_ = b.capacity_ := by
  induction ops generalizing b with
  | nil => exact ⟨b, rfl, h, rfl⟩
  | cons op ops ih =>
    simp only [PreOK, Bool.and_eq_true] at hp
    obtain ⟨b1, h1⟩ := h.apply_some hp.1
    obtain ⟨w1, c1⟩ := h.apply_wf h1
    have hp2 := hp.2
    rw [h1] at hp2
    obtain ⟨b', e1, e2, e3⟩ := ih w1 hp2
    exact ⟨b', by rw [run, h1]; exact e1, e2, by rw [e3, c1]⟩

/-- C2: a buffer constructed with a power-of-two capacity `C` keeps `head < C`, `tail < C`
and `full_ → head = tail` through every sequence of `push`, bulk `push`, `pop`, bulk `pop`,
`clear`, `move_head` and `move_tail` calls that are each made within their precondition; the
whole sequence runs without a failed assertion. -/
theorem state_invariant (C k : Nat) (hk : k < 64) (hC : C = 2 ^ k) (mem : List T)
    (hmem : mem.length = C) (b0 : CircularBuffer T) (hb0 : create C mem = some b0)
    (ops : List (Op T)) (hpre : b0.PreOK ops = true) :
    ∃ b, b0.run ops = some b ∧ b.capacity_ = C ∧ b.head < C ∧ b.tail < C ∧
      (b.full_ = true → b.head = b.tail) := by
  obtain ⟨b0', e0, w0, c0, _⟩ := create_wf (T := T) hk hC hmem
  rw [hb0] at e0
  cases e0
  obtain ⟨b, e1, w1, c1⟩ := w0.run_wf ops hpre
  rw [c0] at c1
  exact ⟨b, e1, c1, c1 ▸ w1.head_lt, c1 ▸ w1.tail_lt, w1.full_eq⟩

/-- C3: in every state that a buffer constructed with a power-of-two capacity `C` reaches
through calls made within their preconditions, `size() <= C` and
`available() + size() == C`. -/
theorem capacity_bookkeeping (C k : Nat) (hk : k < 64) (hC : C = 2 ^ k) (mem : List T)
    (hmem : mem.length = C) (b0 : CircularBuffer T) (hb0 : create C mem = some b0)
    (ops : List (Op T)) (hpre : b0.PreOK ops = true) :
    ∃ b, b0.run ops = some b ∧ b.size ≤ C ∧ b.available + b.size = C ∧
      size_add b.available b.size = C := by
  obtain ⟨b0', e0, w0, c0, _⟩ := create_wf (T := T) hk hC hmem
  rw [hb0] at e0
  cases e0
  obtain ⟨b, e1, w1, c1⟩ := w0.run_wf ops hpre
  rw [c0] at c1
  have h1 := w1.size_le
  have h2 := w1.available_eq
  have h3 := w1.cap_le
  have h4 : b.available + b.size < SIZE_MOD := by
    have := w1.cap_pos
    omega
  refine ⟨b, e1, c1 ▸ h1, by omega, ?_⟩
  rw [size_add_eq h4]
  omega

theorem state_invariant_witness :
    (4 = 2 ^ 2 ∧ [0, 0, 0, 0].length = 4 ∧
      PreOK (T := Nat)
        { buffer := [0, 0, 0, 0], head := 0, tail := 0, full_ := false, capacity_ := 4 }
        [.push 1, .push_n [2, 3, 4] 3, .pop 0, .move_tail 1, .move_head 2,
          .pop_n [0, 0] 2, .clear] = true) ∧
    ∃ b : CircularBuffer Nat,
      run { buffer := [0, 0, 0, 0], head := 0, tail := 0, full_ := false, capacity_ := 4 }
        [.push 1, .push_n [2, 3, 4] 3, .pop 0, .move_tail 1, .move_head 2,
          .pop_n [0, 0] 2, .clear] = some b ∧
      b.capacity_ = 4 ∧ b.head < 4 ∧ b.tail < 4 ∧ (b.full_ = true → b.head = b.tail) :=
  ⟨⟨by decide, by decide, by decide⟩,
    state_invariant 4 2 (by decide) (by decide) [0, 0, 0, 0] (by decide) _ (by decide) _
      (by decide)⟩

theorem capacity_bookkeeping_witness :
    (2 = 2 ^ 1 ∧ [7, 7].length = 2 ∧
      PreOK (T := Nat)
        { buffer := [7, 7], head := 0, tail := 0, full_ := false, capacity_ := 2 }
        [.push_n [1, 2] 2, .move_tail 1, .push 3, .pop_n [0, 0] 2] = true) ∧
    ∃ b : CircularBuffer Nat,
      run { buffer := [7, 7], head := 0, tail := 0, full_ := false, capacity_ := 2 }
        [.push_n [1, 2] 2, .move_tail 1, .push 3, .pop_n [0, 0] 2] = some b ∧
      b.size ≤ 2 ∧ b.available + b.size = 2 ∧ size_add b.available b.size = 2 :=
  ⟨⟨by decide, by decide, by decide⟩,
    capacity_bookkeeping 2 1 (by decide) (by decide) [7, 7] (by decide) _ (by decide) _
      (by decide)⟩

end CircularBuffer

/-! ## Size accounting -/

namespace CircularBuffer

variable {T : Type}

theorem WF.run_calls_size {b b' : CircularBuffer T} (h : b.WF) (calls : List (Call T))
    {pops : Nat} (hr : b.run_calls calls = some (b', pops)) :
    b'.size + pops = b.size + pushes calls := by
  induction calls generalizing b b' pops with
  | nil =>
    simp only [run_calls, Option.some.injEq, Prod.mk.injEq] at hr
    rw [← hr.1, ← hr.2]
    rfl
  | cons c cs ih =>
    cases c with
    | push item =>
      simp only [run_calls, Option.bind_eq_some] at hr
      obtain ⟨b1, hp, hr1⟩ := hr
      have := ih (h.push_wf hp) hr1
      rw [h.push_size hp] at this
      simp only [pushes]
      omega
    | pop item =>
      simp only [run_calls, Option.map_eq_some', Prod.mk.injEq, Prod.exists] at hr
      obtain ⟨b1, n1, hr1, e1, e2⟩ := hr
      subst e1
      have := ih (h.pop_wf item) hr1
      simp only [pushes]
      cases he : b.empty
      · have hs := h.pop_size he item
        rw [h.pop_eq he] at e2
        simp only [if_true] at e2
        omega
      · rw [WF.pop_empty he] at this e2
        simp only [Bool.false_eq_true, if_false] at this e2
        omega

/-- C4: starting from a freshly constructed buffer of power-of-two capacity, after any
sequence of `push(item)` and `pop(item)` calls in which no `push` meets a full buffer,
`size()` is the number of pushes minus the number of pops that returned `true`. -/
theorem size_accounting (C k : Nat) (hk : k < 64) (hC : C = 2 ^ k) (mem : List T)
    (hmem : mem.length = C) (b0 : CircularBuffer T) (hb0 : create C mem = some b0)
    (calls : List (Call T)) (b : CircularBuffer T) (pops : Nat)
    (hrun : b0.run_calls calls = some (b, pops)) :
    pops ≤ pushes calls ∧ b.size = pushes calls - pops := by
  obtain ⟨b0', e0, w0, _, hh, ht, hf, _⟩ := create_wf (T := T) hk hC hmem
  rw [hb0] at e0
  cases e0
  have h1 := w0.run_calls_size calls hrun
  have h2 := (WF.contents_of_empty (hh.trans ht.symm) hf).1
  omega

theorem size_accounting_witness :
    (4 = 2 ^ 2 ∧ [0, 0, 0, 0].length = 4 ∧
      create 4 [0, 0, 0, 0]
        = some { buffer := [0, 0, 0, 0], head := 0, tail := 0, full_ := false, capacity_ := 4 } ∧
      run_calls (T := Nat)
        { buffer := [0, 0, 0, 0], head := 0, tail := 0, full_ := false, capacity_ := 4 }
        [.pop 0, .push 1, .push 2, .pop 0, .push 3, .push 4, .push 5, .pop 0, .pop 0]
        = some
          ({ buffer := [5, 2, 3, 4], head := 1, tail := 3, full_ := false, capacity_ := 4 },
            3)) ∧
    3 ≤ pushes (T := Nat)
        [.pop 0, .push 1, .push 2, .pop 0, .push 3, .push 4, .push 5, .pop 0, .pop 0] ∧
    size (T := Nat)
        { buffer := [5, 2, 3, 4], head := 1, tail := 3, full_ := false, capacity_ := 4 }
      = pushes (T := Nat)
        [.pop 0, .push 1, .push 2, .pop 0, .push 3, .push 4, .push 5, .pop 0, .pop 0] - 3 :=
  ⟨⟨by decide, by decide, by decide, by decide⟩,
    size_accounting 4 2 (by decide) (by decide) [0, 0, 0, 0] (by decide)
      { buffer := [0, 0, 0, 0], head := 0, tail := 0, full_ := false, capacity_ := 4 }
      (by decide) _ _ _ (by decide)⟩

end CircularBuffer

/-! ## Bulk push -/

namespace CircularBuffer

variable {T : Type}

theorem getElem?_push_copies (src buf : List T) {head len C : Nat} (hsrc : len ≤ src.length)
    (hbuf : buf.length = C) (j : Nat) (hj : j < C) :
    (std_copy (read_range src (min len (C - head)) (len - min len (C - head)))
        (std_copy (read_range src 0 (min len (C - head))) buf head) 0)[j]? =
      if j < len - min len (C - head) then src[min len (C - head) + j]?
      else if head ≤ j ∧ j < head + min len (C - head) then src[j - head]?
      else buf[j]? := by
  rw [getElem?_std_copy, getElem?_std_copy, length_std_copy, length_read_range,
    length_read_range, getElem?_read_range, getElem?_read_range, hbuf]
  have hm := Nat.min_le_left len (C - head)
  by_cases h1 : j < len - min len (C - head)
  · rw [if_pos (by omega), if_pos h1, if_pos (by omega)]
    simp
  · rw [if_neg (by omega), if_neg h1]
    by_cases h2 : head ≤ j ∧ j < head + min len (C - head)
    · rw [if_pos (by omega), if_pos h2, if_pos (by omega)]
      simp
    · rw [if_neg (by omega), if_neg h2]

/-- C5: in a well-formed state, `push(src, len)` with `len <= available()` stores `src[k]`
in slot `(head + k) mod capacity_` for every `k < len`, leaves every other slot (hence every
unread item) as it was, leaves `tail` unchanged and advances `head` to
`(head + len) mod capacity_`, whether or not the range wraps at the end of the storage. -/
theorem bulk_push_placement (b : CircularBuffer T) (hwf : b.WF) (src : List T) (len : Nat)
    (hsrc : len ≤ src.length) (hlen : len ≤ b.available) :
    ∃ b', b.push_n src len = some b' ∧
      (∀ k, k < len → b'.buffer[(b.head + k) % b.capacity_]? = src[k]?) ∧
      (∀ j, j < b.capacity_ → (∀ k, k < len → j ≠ (b.head + k) % b.capacity_) →
        b'.buffer[j]? = b.buffer[j]?) ∧
      (∀ i, i < b.size → b'.buffer[(b.tail + i) % b.capacity_]?
        = b.buffer[(b.tail + i) % b.capacity_]?) ∧
      b'.buffer.length = b.capacity_ ∧ b'.capacity_ = b.capacity_ ∧
      b'.tail = b.tail ∧ b'.head = (b.head + len) % b.capacity_ := by
  have h1 := hwf.cap_pos
  have h2 := hwf.head_lt
  have h3 := hwf.tail_lt
  have h4 := hwf.size_le
  have h5 := hwf.available_eq
  have hm := Nat.min_le_left len (b.capacity_ - b.head)
  have hm' := Nat.min_le_right len (b.capacity_ - b.head)
  have other : ∀ j, j < b.capacity_ → (∀ k, k < len → j ≠ (b.head + k) % b.capacity_) →
      (std_copy (read_range src (min len (b.capacity_ - b.head))
          (len - min len (b.capacity_ - b.head)))
        (std_copy (read_range src 0 (min len (b.capacity_ - b.head))) b.buffer b.head) 0)[j]?
      = b.buffer[j]? := by
    intro j hj hne
    rw [getElem?_push_copies src b.buffer hsrc hwf.len j hj]
    by_cases c1 : j < len - min len (b.capacity_ - b.head)
    · exfalso
      have := hne (min len (b.capacity_ - b.head) + j) (by omega)
      rw [mod_wrap (by omega)] at this
      split_ifs at this <;> omega
    · rw [if_neg c1]
      by_cases c2 : b.head ≤ j ∧ j < b.head + min len (b.capacity_ - b.head)
      · exfalso
        have := hne (j - b.head) (by omega)
        rw [mod_wrap (by omega)] at this
        split_ifs at this <;> omega
      · rw [if_neg c2]
  refine ⟨_, hwf.push_n_eq src hlen, ?_, other, ?_, ?_, rfl, rfl, rfl⟩
  · intro k hk
    have hw := @mod_wrap b.capacity_ (b.head + k) (by omega)
    simp only
    rw [getElem?_push_copies src b.buffer hsrc hwf.len _ (Nat.mod_lt _ h1), hw]
    by_cases c : b.head + k < b.capacity_
    · rw [if_pos c, if_neg (by omega), if_pos (by omega)]
      congr 1
      omega
    · rw [if_neg c, if_pos (by omega)]
      congr 1
      omega
  · intro i hi
    apply other _ (Nat.mod_lt _ h1)
    intro k hk
    have hs := hwf.size_eq
    rw [mod_wrap (by omega : b.tail + i < 2 * b.capacity_),
      mod_wrap (by omega : b.head + k < 2 * b.capacity_)]
    cases hf : b.full_
    · rw [hf] at hs
      simp only [Bool.false_eq_true, if_false] at hs
      split_ifs at hs ⊢ <;> omega
    · rw [hf] at hs
      simp only [if_true] at hs
      omega
  · simp [length_std_copy, hwf.len]

theorem bulk_push_placement_witness :
    (WF (T := Nat)
        { buffer := [9, 1, 2, 9], head := 3, tail := 1, full_ := false, capacity_ := 4 } ∧
      2 ≤ [5, 6].length ∧
      2 ≤ available (T := Nat)
        { buffer := [9, 1, 2, 9], head := 3, tail := 1, full_ := false, capacity_ := 4 }) ∧
    ∃ b' : CircularBuffer Nat,
      push_n { buffer := [9, 1, 2, 9], head := 3, tail := 1, full_ := false, capacity_ := 4 }
        [5, 6] 2 = some b' ∧
      (∀ k, k < 2 → b'.buffer[(3 + k) % 4]? = [5, 6][k]?) ∧
      (∀ j, j < 4 → (∀ k, k < 2 → j ≠ (3 + k) % 4) → b'.buffer[j]? = [9, 1, 2, 9][j]?) ∧
      (∀ i,
        i < size (T := Nat)
          { buffer := [9, 1, 2, 9], head := 3, tail := 1, full_ := false, capacity_ := 4 } →
        b'.buffer[(1 + i) % 4]? = [9, 1, 2, 9][(1 + i) % 4]?) ∧
      b'.buffer.length = 4 ∧ b'.capacity_ = 4 ∧ b'.tail = 1 ∧ b'.head = (3 + 2) % 4 :=
  ⟨⟨⟨⟨2, by decide, rfl⟩, rfl, by decide, by decide, by simp⟩, by decide, by decide⟩,
    bulk_push_placement
      { buffer := [9, 1, 2, 9], head := 3, tail := 1, full_ := false, capacity_ := 4 }
      ⟨⟨2, by decide, rfl⟩, rfl, by decide, by decide, by simp⟩ [5, 6] 2 (by decide)
      (by decide)⟩

end CircularBuffer

/-! ## Bulk pop -/

namespace CircularBuffer

variable {T : Type}

theorem WF.index_slot_eq {b : CircularBuffer T} (h : b.WF) (i : Nat) :
    b.index_slot i = if i < b.size then some ((b.tail + i) % b.capacity_) else none := by
  have h1 := h.cap_le
  have h2 := h.tail_lt
  have h3 := h.size_le
  unfold index_slot
  split
  · show some (size_and (size_add b.tail i) (size_sub b.capacity_ 1)) = _
    rw [h.mask, size_add_eq (by omega)]
  · rfl

theorem WF.index_get_eq {b : CircularBuffer T} (h : b.WF) (i : Nat) :
    b.index_get i = if i < b.size then b.buffer[(b.tail + i) % b.capacity_]? else none := by
  unfold index_get
  rw [h.index_slot_eq]
  split <;> rfl

theorem WF.index_get_contents {b : CircularBuffer T} (h : b.WF) (i : Nat) :
    b.index_get i = b.contents[i]? := by
  rw [h.index_get_eq, h.getElem?_contents]

theorem getElem?_pop_copies (buf dest : List T) {tail len C : Nat} (hdest : len ≤ dest.length)
    (hbuf : buf.length = C) (ht : tail < C) (hl : len ≤ C) (k : Nat) :
    (std_copy (read_range buf 0 (len - min len (C - tail)))
        (std_copy (read_range buf tail (min len (C - tail))) dest 0) (min len (C - tail)))[k]? =
      if k < len then buf[(tail + k) % C]? else dest[k]? := by
  rw [getElem?_std_copy, getElem?_std_copy, length_std_copy, length_read_range,
    length_read_range, getElem?_read_range, getElem?_read_range, hbuf]
  have hm := Nat.min_le_left len (C - tail)
  have hm' := Nat.min_le_right len (C - tail)
  by_cases hk : k < len
  · have hw := @mod_wrap C (tail + k) (by omega)
    rw [if_pos hk, hw]
    by_cases c : k < min len (C - tail)
    · have c1 : ¬ (min len (C - tail) ≤ k ∧
          k < min len (C - tail) + min (len - min len (C - tail)) (C - 0) ∧
          k < dest.length) := by omega
      have c2 : 0 ≤ k ∧ k < 0 + min (min len (C - tail)) (C - tail) ∧ k < dest.length := by
        omega
      rw [if_neg c1, if_pos c2, if_pos (by omega), if_pos (by omega), Nat.sub_zero]
    · have c1 : min len (C - tail) ≤ k ∧
          k < min len (C - tail) + min (len - min len (C - tail)) (C - 0) ∧
          k < dest.length := by omega
      rw [if_pos c1, if_pos (by omega), if_neg (by omega)]
      congr 1
      omega
  · have c1 : ¬ (min len (C - tail) ≤ k ∧
        k < min len (C - tail) + min (len - min len (C - tail)) (C - 0) ∧
        k < dest.length) := by omega
    have c2 : ¬ (0 ≤ k ∧ k < 0 + min (min len (C - tail)) (C - tail) ∧ k < dest.length) := by
      omega
    rw [if_neg c1, if_neg c2, if_neg hk]

theorem WF.move_tail_size {b : CircularBuffer T} (h : b.WF) {len : Nat} (hl : len ≤ b.size)
    (h0 : len ≠ 0) :
    size { b with tail := (b.tail + len) % b.capacity_, full_ := false } = b.size - len := by
  have h1 := h.cap_pos
  have h2 := h.head_lt
  have h3 := h.tail_lt
  have h4 := h.size_le
  have hw' : WF { b with tail := (b.tail + len) % b.capacity_, full_ := false } :=
    h.update h.len h.head_lt (Nat.mod_lt _ h1) (by simp)
  have hw := @mod_wrap b.capacity_ (b.tail + len) (by omega)
  rw [hw'.size_eq]
  rw [h.size_eq] at hl ⊢
  simp only [Bool.false_eq_true, if_false]
  rw [hw]
  cases hf : b.full_
  · rw [hf] at hl
    simp only [Bool.false_eq_true, if_false] at hl ⊢
    split_ifs at hl ⊢ <;> omega
  · have h5 := h.full_eq hf
    rw [hf] at hl
    simp only [if_true] at hl ⊢
    split_ifs <;> omega

/-- C6: in a well-formed state, `pop(dest, len)` with `len <= size()` copies to
`dest[0 .. len)` the `len` oldest items in order (`dest[k]` is what `operator[](k)` referred
to before the call) and leaves the rest of `dest`, `head` and the storage unchanged;
afterwards `size()` is smaller by `len` and `operator[](k)` refers to what
`operator[](k + len)` referred to before; with `len == 0` or an empty buffer nothing
changes. -/
theorem bulk_pop (b : CircularBuffer T) (hwf : b.WF) (dest : List T) (len : Nat)
    (hdest : len ≤ dest.length) (hlen : len ≤ b.size) :
    ∃ dest' b', b.pop_n dest len = some (dest', b') ∧
      (∀ k, k < len → dest'[k]? = b.index_get k ∧ (b.index_get k).isSome = true) ∧
      (∀ k, len ≤ k → dest'[k]? = dest[k]?) ∧
      b'.head = b.head ∧ b'.buffer = b.buffer ∧ b'.capacity_ = b.capacity_ ∧
      b'.size = b.size - len ∧
      (∀ k, k < b.size - len → b'.index_get k = b.index_get (k + len)) ∧
      (len = 0 ∨ b.empty = true → dest' = dest ∧ b' = b) := by
  have h1 := hwf.cap_pos
  have h3 := hwf.tail_lt
  have h4 := hwf.size_le
  by_cases h0 : len = 0
  · subst h0
    refine ⟨dest, b, by simp [pop_n], ?_, fun _ _ => rfl, rfl, rfl, rfl, by omega,
      fun _ _ => rfl, fun _ => ⟨rfl, rfl⟩⟩
    intro k hk
    omega
  · have hw' : WF { b with tail := (b.tail + len) % b.capacity_, full_ := false } :=
      hwf.update hwf.len hwf.head_lt (Nat.mod_lt _ h1) (by simp)
    have hsz := hwf.move_tail_size hlen h0
    refine ⟨_, _, hwf.pop_n_eq dest hlen h0, ?_, ?_, rfl, rfl, rfl, hsz, ?_, ?_⟩
    · intro k hk
      rw [getElem?_pop_copies b.buffer dest hdest hwf.len h3 (by omega), if_pos hk, hwf.index_get_eq,
        if_pos (by omega)]
      refine ⟨rfl, ?_⟩
      rw [Option.isSome_iff_exists]
      exact ⟨_, List.getElem?_eq_getElem (by rw [hwf.len]; exact Nat.mod_lt _ h1)⟩
    · intro k hk
      rw [getElem?_pop_copies b.buffer dest hdest hwf.len h3 (by omega), if_neg (by omega)]
    · intro k hk
      rw [hw'.index_get_eq, hsz, if_pos hk, hwf.index_get_eq, if_pos (by omega)]
      simp only
      rw [Nat.mod_add_mod]
      congr 2
      omega
    · intro hc
      rcases hc with hc | hc
      · exact absurd hc h0
      · rw [hwf.empty_eq] at hc
        have := of_decide_eq_true hc
        omega

theorem bulk_pop_witness :
    (WF (T := Nat)
        { buffer := [3, 4, 1, 2], head := 2, tail := 2, full_ := true, capacity_ := 4 } ∧
      3 ≤ [0, 0, 0, 7].length ∧
      3 ≤ size (T := Nat)
        { buffer := [3, 4, 1, 2], head := 2, tail := 2, full_ := true, capacity_ := 4 }) ∧
    pop_n (T := Nat)
        { buffer := [3, 4, 1, 2], head := 2, tail := 2, full_ := true, capacity_ := 4 }
        [0, 0, 0, 7] 3
      = some ([1, 2, 3, 7],
          { buffer := [3, 4, 1, 2], head := 2, tail := 1, full_ := false, capacity_ := 4 }) ∧
    ∃ (dest' : List Nat) (b' : CircularBuffer Nat),
      pop_n { buffer := [3, 4, 1, 2], head := 2, tail := 2, full_ := true, capacity_ := 4 }
        [0, 0, 0, 7] 3 = some (dest', b') ∧
      (∀ k, k < 3 →
        dest'[k]? = index_get (T := Nat)
          { buffer := [3, 4, 1, 2], head := 2, tail := 2, full_ := true, capacity_ := 4 } k ∧
        (index_get (T := Nat)
          { buffer := [3, 4, 1, 2], head := 2, tail := 2, full_ := true, capacity_ := 4 }
          k).isSome = true) ∧
      (∀ k, 3 ≤ k → dest'[k]? = [0, 0, 0, 7][k]?) ∧
      b'.head = 2 ∧ b'.buffer = [3, 4, 1, 2] ∧ b'.capacity_ = 4 ∧
      b'.size = size (T := Nat)
        { buffer := [3, 4, 1, 2], head := 2, tail := 2, full_ := true, capacity_ := 4 } - 3 ∧
      (∀ k,
        k < size (T := Nat)
          { buffer := [3, 4, 1, 2], head := 2, tail := 2, full_ := true, capacity_ := 4 } - 3 →
        b'.index_get k = index_get (T := Nat)
          { buffer := [3, 4, 1, 2], head := 2, tail := 2, full_ := true, capacity_ := 4 }
          (k + 3)) ∧
      (3 = 0 ∨ empty (T := Nat)
          { buffer := [3, 4, 1, 2], head := 2, tail := 2, full_ := true, capacity_ := 4 }
          = true →
        dest' = [0, 0, 0, 7] ∧
        b' = { buffer := [3, 4, 1, 2], head := 2, tail := 2, full_ := true, capacity_ := 4 }) :=
  ⟨⟨⟨⟨2, by decide, rfl⟩, rfl, by decide, by decide, by simp⟩, by decide, by decide⟩,
    by decide,
    bulk_pop { buffer := [3, 4, 1, 2], head := 2, tail := 2, full_ := true, capacity_ := 4 }
      ⟨⟨2, by decide, rfl⟩, rfl, by decide, by decide, by simp⟩ [0, 0, 0, 7] 3 (by decide)
      (by decide)⟩

end CircularBuffer

/-! ## Direct-access windows -/

namespace CircularBuffer

variable {T : Type}

theorem WF.available_span_eq {b : CircularBuffer T} (h : b.WF) :
    b.available_as_contiguous_span =
      { start := b.head
        length := if b.tail ≤ b.head then b.capacity_ - b.head else b.tail - b.head } := by
  have h1 := h.cap_le
  have h2 := h.head_lt
  have h3 := h.tail_lt
  unfold available_as_contiguous_span
  split
  · rw [size_sub_eq (by omega) (by omega)]
  · rw [size_sub_eq (by omega) (by omega)]

theorem WF.used_span_eq {b : CircularBuffer T} (h : b.WF) :
    b.used_as_contiguous_span =
      { start := b.tail
        length := if b.tail ≤ b.head then b.head - b.tail else b.capacity_ - b.tail } := by
  have h1 := h.cap_le
  have h2 := h.head_lt
  have h3 := h.tail_lt
  unfold used_as_contiguous_span
  split
  · rw [size_sub_eq (by omega) (by omega)]
  · rw [size_sub_eq (by omega) (by omega)]

/-- In a well-formed state that is not full, the free window is the longest run of free
slots from `head` on. -/
theorem WF.available_span_of_not_full {b : CircularBuffer T} (h : b.WF)
    (hf : b.full_ = false) :
    b.available_as_contiguous_span.start = b.head ∧
      b.available_as_contiguous_span.length = min b.available (b.capacity_ - b.head) := by
  have h2 := h.head_lt
  have h3 := h.tail_lt
  rw [h.available_span_eq, h.available_eq, h.size_eq, hf]
  simp only [Bool.false_eq_true, if_false, true_and]
  split_ifs <;> omega

/-- In a well-formed state that is not full, the used window is the longest run of occupied
slots from `tail` on. -/
theorem WF.used_span_of_not_full {b : CircularBuffer T} (h : b.WF) (hf : b.full_ = false) :
    b.used_as_contiguous_span.start = b.tail ∧
      b.used_as_contiguous_span.length = min b.size (b.capacity_ - b.tail) := by
  have h2 := h.head_lt
  have h3 := h.tail_lt
  rw [h.used_span_eq, h.size_eq, hf]
  simp only [Bool.false_eq_true, if_false, true_and]
  split_ifs <;> omega

/-- C7 (the full buffer): after four pushes into a buffer of capacity 4, `available()` is 0
but `available_as_contiguous_span()` is the span of all four occupied slots, so its length
exceeds `available()` and differs from `min(available(), capacity - head)`. -/
theorem free_window_of_full_buffer :
    (create 4 [0, 0, 0, 0]).bind (fun b => b.push_all [1, 2, 3, 4])
      = some { buffer := [1, 2, 3, 4], head := 0, tail := 0, full_ := true, capacity_ := 4 } ∧
    WF (T := Nat)
      { buffer := [1, 2, 3, 4], head := 0, tail := 0, full_ := true, capacity_ := 4 } ∧
    available (T := Nat)
      { buffer := [1, 2, 3, 4], head := 0, tail := 0, full_ := true, capacity_ := 4 } = 0 ∧
    available_as_contiguous_span (T := Nat)
      { buffer := [1, 2, 3, 4], head := 0, tail := 0, full_ := true, capacity_ := 4 }
      = { start := 0, length := 4 } :=
  ⟨by decide, ⟨⟨2, by decide, rfl⟩, rfl, by decide, by decide, by simp⟩, by decide, by decide⟩

/-- C8 (the full buffer): after four pushes into a buffer of capacity 4, `size()` is 4 and
the buffer is not empty, but `used_as_contiguous_span()` is empty instead of holding
`min(size(), capacity - tail) = 4` items. -/
theorem used_window_of_full_buffer :
    (create 4 [0, 0, 0, 0]).bind (fun b => b.push_all [1, 2, 3, 4])
      = some { buffer := [1, 2, 3, 4], head := 0, tail := 0, full_ := true, capacity_ := 4 } ∧
    WF (T := Nat)
      { buffer := [1, 2, 3, 4], head := 0, tail := 0, full_ := true, capacity_ := 4 } ∧
    size (T := Nat)
      { buffer := [1, 2, 3, 4], head := 0, tail := 0, full_ := true, capacity_ := 4 } = 4 ∧
    empty (T := Nat)
      { buffer := [1, 2, 3, 4], head := 0, tail := 0, full_ := true, capacity_ := 4 } = false ∧
    used_as_contiguous_span (T := Nat)
      { buffer := [1, 2, 3, 4], head := 0, tail := 0, full_ := true, capacity_ := 4 }
      = { start := 0, length := 0 } :=
  ⟨by decide, ⟨⟨2, by decide, rfl⟩, rfl, by decide, by decide, by simp⟩, by decide, by decide,
    by decide⟩

end CircularBuffer

/-! ## Writing through the free window -/

namespace CircularBuffer

variable {T : Type}

theorem WF.span_write_eq {b : CircularBuffer T} (h : b.WF) {s : Span} {items : List T}
    (h1 : items.length ≤ s.length) (h2 : s.start + s.length ≤ b.capacity_) :
    b.span_write s items = some { b with buffer := std_copy items b.buffer s.start } := by
  unfold span_write
  rw [if_pos ⟨h1, by rw [h.len]; exact h2⟩]

/-- C9: in a well-formed state, for `len <= available()`, the two-step procedure through
`available_as_contiguous_span()` and `move_head` runs within the lengths of the spans and
the preconditions of `move_head`, and ends in the same state (storage, `head`, `tail`,
`full_`, hence `size()`) as `push(src, len)`, also when the write wraps. -/
theorem write_window_equivalence (b : CircularBuffer T) (hwf : b.WF) (src : List T)
    (len : Nat) (hlen : len ≤ b.available) :
    ∃ b', b.window_push src len = some b' ∧ b.push_n src len = some b' := by
  have h1 := hwf.cap_pos
  have h2 := hwf.head_lt
  have h3 := hwf.tail_lt
  have h4 := hwf.size_le
  have h5 := hwf.available_eq
  have hs := hwf.size_eq
  have hfe := hwf.full_eq
  have hm1 := Nat.min_le_left len (b.capacity_ - b.head)
  have hm2 := Nat.min_le_right len (b.capacity_ - b.head)
  refine ⟨_, ?_, hwf.push_n_eq src hlen⟩
  have hL : min len (if b.tail ≤ b.head then b.capacity_ - b.head else b.tail - b.head)
      = min len (b.capacity_ - b.head) := by
    cases hf : b.full_
    · rw [hf] at hs
      simp only [Bool.false_eq_true, if_false] at hs
      split_ifs at hs ⊢ <;> omega
    · rw [hf] at hs
      simp only [if_true] at hs
      split_ifs <;> omega
  have hLe : min len (b.capacity_ - b.head)
      ≤ (if b.tail ≤ b.head then b.capacity_ - b.head else b.tail - b.head) := by
    rw [← hL]
    exact Nat.min_le_right _ _
  have hLC : b.head + (if b.tail ≤ b.head then b.capacity_ - b.head else b.tail - b.head)
      ≤ b.capacity_ := by
    split_ifs <;> omega
  have w1 : WF { b with
      buffer := std_copy (read_range src 0 (min len (b.capacity_ - b.head))) b.buffer b.head } :=
    hwf.update (by rw [length_std_copy, hwf.len]) h2 h3 hfe
  have hw := @mod_wrap b.capacity_ (b.head + min len (b.capacity_ - b.head)) (by omega)
  unfold window_push
  simp only []
  rw [hwf.available_span_eq]
  simp only []
  rw [hL]
  rw [hwf.span_write_eq (by rw [length_read_range]; exact (Nat.min_le_left _ _).trans hLe) hLC]
  simp only [Option.some_bind]
  rw [w1.move_head_eq (show min len (b.capacity_ - b.head) ≤ b.available by omega)]
  simp only [Option.some_bind]
  by_cases hr : len - min len (b.capacity_ - b.head) > 0
  · rw [if_pos hr]
    have hm : min len (b.capacity_ - b.head) = b.capacity_ - b.head := by omega
    have e0 : (b.head + min len (b.capacity_ - b.head)) % b.capacity_ = 0 := by
      rw [hw]; split_ifs <;> omega
    have ht0 : 0 < b.tail ∧ len - min len (b.capacity_ - b.head) ≤ b.tail := by
      cases hf : b.full_
      · rw [hf] at hs
        simp only [Bool.false_eq_true, if_false] at hs
        split_ifs at hs <;> omega
      · rw [hf] at hs
        simp only [if_true] at hs
        omega
    have hbeq : (0 == b.tail) = false := by
      rw [beq_eq_false_iff_ne]
      omega
    have e1 : (b.head + len) % b.capacity_ = len - min len (b.capacity_ - b.head) := by
      rw [mod_wrap (by omega)]
      split_ifs <;> omega
    have e2 : (0 + (len - min len (b.capacity_ - b.head))) % b.capacity_
        = len - min len (b.capacity_ - b.head) := by
      rw [Nat.zero_add]
      exact Nat.mod_eq_of_lt (by omega)
    have w2 : WF { b with
        buffer := std_copy (read_range src 0 (min len (b.capacity_ - b.head))) b.buffer b.head
        head := 0
        full_ := false } :=
      hwf.update (by rw [length_std_copy, hwf.len]) h1 h3 (by simp)
    have w3 : WF { b with
        buffer := std_copy
          (read_range src (min len (b.capacity_ - b.head))
            (len - min len (b.capacity_ - b.head)))
          (std_copy (read_range src 0 (min len (b.capacity_ - b.head))) b.buffer b.head) 0
        head := 0
        full_ := false } :=
      hwf.update (by rw [length_std_copy, length_std_copy, hwf.len]) h1 h3 (by simp)
    have ha3 := w3.available_eq
    rw [w3.size_eq] at ha3
    simp only [Bool.false_eq_true, if_false, if_pos ht0.1] at ha3
    rw [e0, hbeq, w2.available_span_eq]
    simp only []
    rw [if_neg (by omega),
      w2.span_write_eq (by rw [length_read_range]; exact (Nat.min_le_left _ _).trans ht0.2)
        (by simp only []; omega)]
    simp only [Option.some_bind]
    rw [w3.move_head_eq (by rw [ha3]; omega)]
    simp only [e1, e2]
  · rw [if_neg hr]
    have hm : min len (b.capacity_ - b.head) = len := by omega
    simp only [hm, Nat.sub_self, read_range_zero, std_copy_nil]

theorem write_window_equivalence_witness :
    (WF (T := Nat)
        { buffer := [9, 1, 2, 9], head := 3, tail := 1, full_ := false, capacity_ := 4 } ∧
      2 ≤ available (T := Nat)
        { buffer := [9, 1, 2, 9], head := 3, tail := 1, full_ := false, capacity_ := 4 }) ∧
    push_n (T := Nat)
        { buffer := [9, 1, 2, 9], head := 3, tail := 1, full_ := false, capacity_ := 4 }
        [5, 6] 2
      = some { buffer := [6, 1, 2, 5], head := 1, tail := 1, full_ := true, capacity_ := 4 } ∧
    ∃ b' : CircularBuffer Nat,
      window_push
        { buffer := [9, 1, 2, 9], head := 3, tail := 1, full_ := false, capacity_ := 4 }
        [5, 6] 2 = some b' ∧
      push_n { buffer := [9, 1, 2, 9], head := 3, tail := 1, full_ := false, capacity_ := 4 }
        [5, 6] 2 = some b' :=
  ⟨⟨⟨⟨2, by decide, rfl⟩, rfl, by decide, by decide, by simp⟩, by decide⟩, by decide,
    write_window_equivalence
      { buffer := [9, 1, 2, 9], head := 3, tail := 1, full_ := false, capacity_ := 4 }
      ⟨⟨2, by decide, rfl⟩, rfl, by decide, by decide, by simp⟩ [5, 6] 2 (by decide)⟩

/-! ## Reading through the used window -/

theorem WF.span_read_eq {b : CircularBuffer T} (h : b.WF) {s : Span} {n : Nat}
    (h1 : n ≤ s.length) (h2 : s.start + s.length ≤ b.capacity_) :
    b.span_read s n = some (read_range b.buffer s.start n) := by
  unfold span_read
  rw [if_pos ⟨h1, by rw [h.len]; exact h2⟩]

/-- In a well-formed state that is not full, for `len <= size()`, the two-step procedure
through `used_as_contiguous_span()` and `move_tail` runs within the lengths of the spans and
the preconditions of `move_tail`, and gives the same `dest` and the same state as
`pop(dest, len)`. -/
theorem WF.read_window_of_not_full {b : CircularBuffer T} (hwf : b.WF)
    (hnf : b.full_ = false) (dest : List T) {len : Nat} (hlen : len ≤ b.size) :
    ∃ r, b.window_pop dest len = some r ∧ b.pop_n dest len = some r := by
  have h1 := hwf.cap_pos
  have h2 := hwf.head_lt
  have h3 := hwf.tail_lt
  have h4 := hwf.size_le
  have hs := hwf.size_eq
  rw [hnf] at hs
  simp only [Bool.false_eq_true, if_false] at hs
  have hm1 := Nat.min_le_left len (b.capacity_ - b.tail)
  have hm2 := Nat.min_le_right len (b.capacity_ - b.tail)
  have hL : min len (if b.tail ≤ b.head then b.head - b.tail else b.capacity_ - b.tail)
      = min len (b.capacity_ - b.tail) := by
    split_ifs at hs ⊢ <;> omega
  have hLe : min len (b.capacity_ - b.tail)
      ≤ (if b.tail ≤ b.head then b.head - b.tail else b.capacity_ - b.tail) := by
    rw [← hL]
    exact Nat.min_le_right _ _
  have hLC : b.tail + (if b.tail ≤ b.head then b.head - b.tail else b.capacity_ - b.tail)
      ≤ b.capacity_ := by
    split_ifs <;> omega
  have hw := @mod_wrap b.capacity_ (b.tail + min len (b.capacity_ - b.tail)) (by omega)
  have hself : ({ b with tail := b.tail, full_ := false } : CircularBuffer T) = b := by
    cases b
    simp only [mk.injEq, true_and, and_true]
    exact hnf.symm
  unfold window_pop
  simp only []
  rw [hwf.used_span_eq]
  simp only []
  rw [hL, hwf.span_read_eq hLe hLC]
  simp only [Option.some_bind]
  rw [hwf.move_tail_eq (show min len (b.capacity_ - b.tail) ≤ b.size by omega)]
  simp only [Option.some_bind]
  by_cases h0 : len = 0
  · subst h0
    refine ⟨(dest, b), ?_, by simp [pop_n]⟩
    simp only [Nat.zero_min, Nat.add_zero, Nat.mod_eq_of_lt h3, Nat.sub_self, gt_iff_lt,
      lt_self_iff_false, if_false, read_range_zero, std_copy_nil, hself]
  · refine ⟨_, ?_, hwf.pop_n_eq dest hlen h0⟩
    by_cases hr : len - min len (b.capacity_ - b.tail) > 0
    · rw [if_pos hr]
      have hm : min len (b.capacity_ - b.tail) = b.capacity_ - b.tail := by omega
      have hht : b.head < b.tail ∧ len - min len (b.capacity_ - b.tail) ≤ b.head := by
        split_ifs at hs <;> omega
      have e0 : (b.tail + min len (b.capacity_ - b.tail)) % b.capacity_ = 0 := by
        rw [hw]; split_ifs <;> omega
      have e1 : (b.tail + len) % b.capacity_ = len - min len (b.capacity_ - b.tail) := by
        rw [mod_wrap (by omega)]
        split_ifs <;> omega
      have e2 : (0 + (len - min len (b.capacity_ - b.tail))) % b.capacity_
          = len - min len (b.capacity_ - b.tail) := by
        rw [Nat.zero_add]
        exact Nat.mod_eq_of_lt (by omega)
      have w1 : WF { b with tail := 0, full_ := false } :=
        hwf.update hwf.len h2 h1 (by simp)
      have hs1 := w1.size_eq
      simp only [Bool.false_eq_true, if_false, Nat.not_lt_zero, Nat.sub_zero] at hs1
      rw [e0, w1.used_span_eq]
      simp only []
      rw [if_pos (Nat.zero_le _), w1.span_read_eq (by simp only []; omega)
        (by simp only []; omega)]
      simp only [Option.some_bind]
      rw [w1.move_tail_eq (by rw [hs1]; exact hht.2)]
      simp only [Option.some_bind, e1, e2]
    · rw [if_neg hr]
      have hm : min len (b.capacity_ - b.tail) = len := by omega
      simp only [hm, Nat.sub_self, read_range_zero, std_copy_nil]

/-- C10 (the full buffer): on the full buffer that four pushes leave in a buffer of capacity
4, `pop(dest, 2)` delivers the two oldest items and leaves two, while the window procedure
cannot run: the first `used_as_contiguous_span()` is empty, `move_tail(0)` clears `full_`,
and the second span is empty too, so the copy of 2 items does not fit it. -/
theorem read_window_of_full_buffer :
    (create 4 [0, 0, 0, 0]).bind (fun b => b.push_all [1, 2, 3, 4])
      = some { buffer := [1, 2, 3, 4], head := 0, tail := 0, full_ := true, capacity_ := 4 } ∧
    pop_n (T := Nat)
        { buffer := [1, 2, 3, 4], head := 0, tail := 0, full_ := true, capacity_ := 4 }
        [0, 0] 2
      = some ([1, 2],
          { buffer := [1, 2, 3, 4], head := 0, tail := 2, full_ := false, capacity_ := 4 }) ∧
    used_as_contiguous_span (T := Nat)
        { buffer := [1, 2, 3, 4], head := 0, tail := 0, full_ := true, capacity_ := 4 }
      = { start := 0, length := 0 } ∧
    move_tail (T := Nat)
        { buffer := [1, 2, 3, 4], head := 0, tail := 0, full_ := true, capacity_ := 4 } 0
      = some { buffer := [1, 2, 3, 4], head := 0, tail := 0, full_ := false, capacity_ := 4 } ∧
    used_as_contiguous_span (T := Nat)
        { buffer := [1, 2, 3, 4], head := 0, tail := 0, full_ := false, capacity_ := 4 }
      = { start := 0, length := 0 } ∧
    window_pop (T := Nat)
        { buffer := [1, 2, 3, 4], head := 0, tail := 0, full_ := true, capacity_ := 4 }
        [0, 0] 2
      = none := by
  decide

end CircularBuffer


/-! ## Indexed access -/

namespace CircularBuffer

variable {T : Type}

/-- C11: in a well-formed state, for `i < size()`, `operator[](i)` refers to the storage
slot `(tail + i) mod capacity_`, which lies inside the storage, and the item there is the
one that the `(i + 1)`-th of `size()` successive `pop(item)` calls returns (each of which
returns `true`). `operator[]` only computes the slot: it has no state to return. -/
theorem indexed_access (b : CircularBuffer T) (hwf : b.WF) (i : Nat) (hi : i < b.size)
    (d : T) :
    b.index_slot i = some ((b.tail + i) % b.capacity_) ∧
      (b.tail + i) % b.capacity_ < b.buffer.length ∧
      ∃ x, b.index_get i = some x ∧ b.buffer[(b.tail + i) % b.capacity_]? = some x ∧
        (b.pop_all d b.size)[i]? = some (true, x) := by
  have h1 := hwf.cap_pos
  have hlt : (b.tail + i) % b.capacity_ < b.buffer.length := by
    rw [hwf.len]
    exact Nat.mod_lt _ h1
  refine ⟨by rw [hwf.index_slot_eq, if_pos hi], hlt, b.buffer[(b.tail + i) % b.capacity_], ?_,
    List.getElem?_eq_getElem hlt, ?_⟩
  · rw [hwf.index_get_eq, if_pos hi]
    exact List.getElem?_eq_getElem hlt
  · rw [hwf.pop_all_contents d b.size (by rw [hwf.length_contents]), List.getElem?_map,
      List.take_of_length_le (by rw [hwf.length_contents]), hwf.getElem?_contents, if_pos hi,
      List.getElem?_eq_getElem hlt]
    rfl

theorem indexed_access_witness :
    (run_calls (T := Nat)
        { buffer := [0, 0, 0, 0], head := 0, tail := 0, full_ := false, capacity_ := 4 }
        [.push 1, .push 2, .push 3, .push 4, .pop 0, .pop 0, .push 5, .push 6]
      = some
        ({ buffer := [5, 6, 3, 4], head := 2, tail := 2, full_ := true, capacity_ := 4 }, 2) ∧
      (List.range 4).map (index_get (T := Nat)
        { buffer := [5, 6, 3, 4], head := 2, tail := 2, full_ := true, capacity_ := 4 })
      = [some 3, some 4, some 5, some 6] ∧
      WF (T := Nat)
        { buffer := [5, 6, 3, 4], head := 2, tail := 2, full_ := true, capacity_ := 4 } ∧
      2 < size (T := Nat)
        { buffer := [5, 6, 3, 4], head := 2, tail := 2, full_ := true, capacity_ := 4 }) ∧
    (index_slot (T := Nat)
        { buffer := [5, 6, 3, 4], head := 2, tail := 2, full_ := true, capacity_ := 4 } 2
      = some ((2 + 2) % 4) ∧
      (2 + 2) % 4 < [5, 6, 3, 4].length ∧
      ∃ x, index_get (T := Nat)
          { buffer := [5, 6, 3, 4], head := 2, tail := 2, full_ := true, capacity_ := 4 } 2
          = some x ∧
        [5, 6, 3, 4][(2 + 2) % 4]? = some x ∧
        (pop_all (T := Nat)
          { buffer := [5, 6, 3, 4], head := 2, tail := 2, full_ := true, capacity_ := 4 } 0
          (size (T := Nat)
            { buffer := [5, 6, 3, 4], head := 2, tail := 2, full_ := true, capacity_ := 4 }))[2]?
          = some (true, x)) :=
  ⟨⟨by decide, by decide, ⟨⟨2, by decide, rfl⟩, rfl, by decide, by decide, by simp⟩, by decide⟩,
    indexed_access
      { buffer := [5, 6, 3, 4], head := 2, tail := 2, full_ := true, capacity_ := 4 }
      ⟨⟨2, by decide, rfl⟩, rfl, by decide, by decide, by simp⟩ 2 (by decide) 0⟩

/-! ## Fullness queries -/

/-- C12: in a well-formed state `full()` holds exactly when `size() == capacity_`,
`empty()` holds exactly when `size() == 0`, and both are false when
`0 < size() < capacity_`. -/
theorem fullness_queries (b : CircularBuffer T) (hwf : b.WF) :
    (b.full = true ↔ b.size = b.capacity_) ∧ (b.empty = true ↔ b.size = 0) ∧
      (0 < b.size → b.size < b.capacity_ → b.full = false ∧ b.empty = false) := by
  have h1 := hwf.cap_pos
  have hfull : b.full = true ↔ b.size = b.capacity_ := by
    unfold full
    constructor
    · intro hf
      rw [hwf.size_eq, if_pos hf]
    · intro hs
      cases hf : b.full_
      · have := hwf.size_lt_of_not_full hf
        omega
      · rfl
  have hempty : b.empty = true ↔ b.size = 0 := by
    rw [hwf.empty_eq]
    exact decide_eq_true_iff
  refine ⟨hfull, hempty, fun h0 hC => ⟨?_, ?_⟩⟩
  · cases hf : b.full
    · rfl
    · have := hfull.1 hf
      omega
  · cases he : b.empty
    · rfl
    · have := hempty.1 he
      omega

theorem fullness_queries_witness :
    WF (T := Nat)
        { buffer := [5, 6, 3, 4], head := 1, tail := 2, full_ := false, capacity_ := 4 } ∧
    ((full (T := Nat)
          { buffer := [5, 6, 3, 4], head := 1, tail := 2, full_ := false, capacity_ := 4 }
          = true ↔
        size (T := Nat)
          { buffer := [5, 6, 3, 4], head := 1, tail := 2, full_ := false, capacity_ := 4 }
          = 4) ∧
      (empty (T := Nat)
          { buffer := [5, 6, 3, 4], head := 1, tail := 2, full_ := false, capacity_ := 4 }
          = true ↔
        size (T := Nat)
          { buffer := [5, 6, 3, 4], head := 1, tail := 2, full_ := false, capacity_ := 4 }
          = 0) ∧
      (0 < size (T := Nat)
          { buffer := [5, 6, 3, 4], head := 1, tail := 2, full_ := false, capacity_ := 4 } →
        size (T := Nat)
          { buffer := [5, 6, 3, 4], head := 1, tail := 2, full_ := false, capacity_ := 4 }
          < 4 →
        full (T := Nat)
          { buffer := [5, 6, 3, 4], head := 1, tail := 2, full_ := false, capacity_ := 4 }
          = false ∧
        empty (T := Nat)
          { buffer := [5, 6, 3, 4], head := 1, tail := 2, full_ := false, capacity_ := 4 }
          = false)) :=
  ⟨⟨⟨2, by decide, rfl⟩, rfl, by decide, by decide, by simp⟩,
    fullness_queries
      { buffer := [5, 6, 3, 4], head := 1, tail := 2, full_ := false, capacity_ := 4 }
      ⟨⟨2, by decide, rfl⟩, rfl, by decide, by decide, by simp⟩⟩

end CircularBuffer

/-! ## Single pop and peek -/

namespace CircularBuffer

variable {T : Type}

theorem WF.getD_tail {b : CircularBuffer T} (h : b.WF) (d : T) :
    b.buffer[b.tail]? = some (b.buffer.getD b.tail d) := by
  have hlt : b.tail < b.buffer.length := by
    rw [h.len]
    exact h.tail_lt
  rw [List.getD_eq_getElem?_getD, List.getElem?_eq_getElem hlt]
  rfl

/-- C13: in a well-formed state `pop(item)` returns `false` exactly when the buffer is
empty, and then the buffer and `item` are unchanged; when it returns `true`, `item` is the
oldest item (what `operator[](0)` referred to), `size()` has decreased by exactly 1, and
`head`, the storage and the capacity are unchanged. -/
theorem single_pop_result (b : CircularBuffer T) (hwf : b.WF) (d : T) :
    ((b.pop d).1 = false ↔ b.empty = true) ∧
      ((b.pop d).1 = false → b.pop d = (false, d, b)) ∧
      ((b.pop d).1 = true →
        b.index_get 0 = some (b.pop d).2.1 ∧ (b.pop d).2.2.size + 1 = b.size ∧
        (b.pop d).2.2.head = b.head ∧ (b.pop d).2.2.buffer = b.buffer ∧
        (b.pop d).2.2.capacity_ = b.capacity_) := by
  have h3 := hwf.tail_lt
  cases he : b.empty
  · have hsz := hwf.pop_size he d
    have hne : b.size ≠ 0 := by omega
    have hig : b.index_get 0 = some (b.buffer.getD b.tail d) := by
      rw [hwf.index_get_eq, if_pos (by omega), Nat.add_zero, Nat.mod_eq_of_lt h3]
      exact hwf.getD_tail d
    rw [hwf.pop_eq he] at hsz ⊢
    exact ⟨by simp, by simp, fun _ => ⟨hig, hsz, rfl, rfl, rfl⟩⟩
  · rw [WF.pop_empty he]
    exact ⟨by simp, fun _ => rfl, by simp⟩

theorem single_pop_result_witness :
    WF (T := Nat)
        { buffer := [5, 6, 3, 4], head := 2, tail := 2, full_ := true, capacity_ := 4 } ∧
    pop (T := Nat)
        { buffer := [5, 6, 3, 4], head := 2, tail := 2, full_ := true, capacity_ := 4 } 0
      = (true, 3,
          { buffer := [5, 6, 3, 4], head := 2, tail := 3, full_ := false, capacity_ := 4 }) ∧
    (((pop (T := Nat)
          { buffer := [5, 6, 3, 4], head := 2, tail := 2, full_ := true, capacity_ := 4 }
          0).1 = false ↔
        empty (T := Nat)
          { buffer := [5, 6, 3, 4], head := 2, tail := 2, full_ := true, capacity_ := 4 }
          = true) ∧
      ((pop (T := Nat)
          { buffer := [5, 6, 3, 4], head := 2, tail := 2, full_ := true, capacity_ := 4 }
          0).1 = false →
        pop (T := Nat)
          { buffer := [5, 6, 3, 4], head := 2, tail := 2, full_ := true, capacity_ := 4 } 0
        = (false, 0,
            { buffer := [5, 6, 3, 4], head := 2, tail := 2, full_ := true, capacity_ := 4 })) ∧
      ((pop (T := Nat)
          { buffer := [5, 6, 3, 4], head := 2, tail := 2, full_ := true, capacity_ := 4 }
          0).1 = true →
        index_get (T := Nat)
          { buffer := [5, 6, 3, 4], head := 2, tail := 2, full_ := true, capacity_ := 4 } 0
        = some (pop (T := Nat)
          { buffer := [5, 6, 3, 4], head := 2, tail := 2, full_ := true, capacity_ := 4 }
          0).2.1 ∧
        (pop (T := Nat)
          { buffer := [5, 6, 3, 4], head := 2, tail := 2, full_ := true, capacity_ := 4 }
          0).2.2.size + 1
        = size (T := Nat)
          { buffer := [5, 6, 3, 4], head := 2, tail := 2, full_ := true, capacity_ := 4 } ∧
        (pop (T := Nat)
          { buffer := [5, 6, 3, 4], head := 2, tail := 2, full_ := true, capacity_ := 4 }
          0).2.2.head = 2 ∧
        (pop (T := Nat)
          { buffer := [5, 6, 3, 4], head := 2, tail := 2, full_ := true, capacity_ := 4 }
          0).2.2.buffer = [5, 6, 3, 4] ∧
        (pop (T := Nat)
          { buffer := [5, 6, 3, 4], head := 2, tail := 2, full_ := true, capacity_ := 4 }
          0).2.2.capacity_ = 4)) :=
  ⟨⟨⟨2, by decide, rfl⟩, rfl, by decide, by decide, by simp⟩, by decide,
    single_pop_result
      { buffer := [5, 6, 3, 4], head := 2, tail := 2, full_ := true, capacity_ := 4 }
      ⟨⟨2, by decide, rfl⟩, rfl, by decide, by decide, by simp⟩ 0⟩

/-- C14: in a well-formed state `peek(item)` returns `false` exactly when the buffer is
empty, and then `item` is untouched; when it returns `true`, `item` is the value that an
immediately following `pop` returns. `peek` is a `const` method: it has no state to
return, so `head`, `tail`, `full_` and the storage are as before. -/
theorem peek_result (b : CircularBuffer T) (hwf : b.WF) (d : T) :
    ((b.peek d).1 = false ↔ b.empty = true) ∧
      ((b.peek d).1 = false → (b.peek d).2 = d) ∧
      ((b.peek d).1 = true →
        ∀ d', (b.pop d').1 = true ∧ (b.pop d').2.1 = (b.peek d).2) := by
  cases he : b.empty
  · have e1 : b.peek d = (true, b.buffer.getD b.tail d) := by simp [peek, he]
    rw [e1]
    refine ⟨by simp, by simp, fun _ d' => ?_⟩
    rw [hwf.pop_eq he]
    refine ⟨rfl, ?_⟩
    have h1 := hwf.getD_tail d
    rw [hwf.getD_tail d'] at h1
    exact Option.some.inj h1
  · have e1 : b.peek d = (false, d) := by simp [peek, he]
    rw [e1]
    exact ⟨by simp, fun _ => rfl, by simp⟩

theorem peek_result_witness :
    WF (T := Nat)
        { buffer := [5, 6, 3, 4], head := 0, tail := 2, full_ := false, capacity_ := 4 } ∧
    peek (T := Nat)
        { buffer := [5, 6, 3, 4], head := 0, tail := 2, full_ := false, capacity_ := 4 } 0
      = (true, 3) ∧
    (((peek (T := Nat)
          { buffer := [5, 6, 3, 4], head := 0, tail := 2, full_ := false, capacity_ := 4 }
          0).1 = false ↔
        empty (T := Nat)
          { buffer := [5, 6, 3, 4], head := 0, tail := 2, full_ := false, capacity_ := 4 }
          = true) ∧
      ((peek (T := Nat)
          { buffer := [5, 6, 3, 4], head := 0, tail := 2, full_ := false, capacity_ := 4 }
          0).1 = false →
        (peek (T := Nat)
          { buffer := [5, 6, 3, 4], head := 0, tail := 2, full_ := false, capacity_ := 4 }
          0).2 = 0) ∧
      ((peek (T := Nat)
          { buffer := [5, 6, 3, 4], head := 0, tail := 2, full_ := false, capacity_ := 4 }
          0).1 = true →
        ∀ d',
          (pop (T := Nat)
            { buffer := [5, 6, 3, 4], head := 0, tail := 2, full_ := false, capacity_ := 4 }
            d').1 = true ∧
          (pop (T := Nat)
            { buffer := [5, 6, 3, 4], head := 0, tail := 2, full_ := false, capacity_ := 4 }
            d').2.1
          = (peek (T := Nat)
            { buffer := [5, 6, 3, 4], head := 0, tail := 2, full_ := false, capacity_ := 4 }
            0).2)) :=
  ⟨⟨⟨2, by decide, rfl⟩, rfl, by decide, by decide, by simp⟩, by decide,
    peek_result
      { buffer := [5, 6, 3, 4], head := 0, tail := 2, full_ := false, capacity_ := 4 }
      ⟨⟨2, by decide, rfl⟩, rfl, by decide, by decide, by simp⟩ 0⟩

end CircularBuffer

/-! ## Moving the read cursor -/

namespace CircularBuffer

variable {T : Type}

/-- In a well-formed state, `move_tail(len)` with `len <= size()` does what a bulk pop does
to the cursors, unless `len == 0` and the buffer is full. -/
theorem WF.move_tail_spec {b : CircularBuffer T} (h : b.WF) {len : Nat} (hl : len ≤ b.size)
    (hc : len ≠ 0 ∨ b.full_ = false) :
    ∃ b', b.move_tail len = some b' ∧ b'.head = b.head ∧ b'.buffer = b.buffer ∧
      b'.capacity_ = b.capacity_ ∧ b'.tail = (b.tail + len) % b.capacity_ ∧
      b'.size = b.size - len := by
  refine ⟨_, h.move_tail_eq hl, rfl, rfl, rfl, rfl, ?_⟩
  by_cases h0 : len = 0
  · subst h0
    have hf : b.full_ = false := by
      rcases hc with hc | hc
      · exact absurd rfl hc
      · exact hc
    have h3 := h.tail_lt
    simp only [Nat.add_zero, Nat.mod_eq_of_lt h3, Nat.sub_zero]
    simp only [size, hf]
  · exact h.move_tail_size hl h0

/-- C15 (`len == 0` on a full buffer): on the full buffer that four pushes leave in a
buffer of capacity 4, `move_tail(0)` passes its assertion and leaves `head`, `tail` and the
storage as they are, but it clears `full_`, so `size()` drops from 4 to 0 instead of staying
4. `pop(dest, 0)` on the same buffer changes nothing. -/
theorem move_tail_zero_of_full_buffer :
    (create 4 [0, 0, 0, 0]).bind (fun b => b.push_all [1, 2, 3, 4])
      = some { buffer := [1, 2, 3, 4], head := 0, tail := 0, full_ := true, capacity_ := 4 } ∧
    WF (T := Nat)
      { buffer := [1, 2, 3, 4], head := 0, tail := 0, full_ := true, capacity_ := 4 } ∧
    size (T := Nat)
      { buffer := [1, 2, 3, 4], head := 0, tail := 0, full_ := true, capacity_ := 4 } = 4 ∧
    move_tail (T := Nat)
        { buffer := [1, 2, 3, 4], head := 0, tail := 0, full_ := true, capacity_ := 4 } 0
      = some { buffer := [1, 2, 3, 4], head := 0, tail := 0, full_ := false, capacity_ := 4 } ∧
    size (T := Nat)
      { buffer := [1, 2, 3, 4], head := 0, tail := 0, full_ := false, capacity_ := 4 } = 0 ∧
    pop_n (T := Nat)
        { buffer := [1, 2, 3, 4], head := 0, tail := 0, full_ := true, capacity_ := 4 } [] 0
      = some ([],
          { buffer := [1, 2, 3, 4], head := 0, tail := 0, full_ := true, capacity_ := 4 }) :=
  ⟨by decide, ⟨⟨2, by decide, rfl⟩, rfl, by decide, by decide, by simp⟩, by decide, by decide,
    by decide, by decide⟩

/-! ## Clear -/

/-- C16: from every state (well-formed or not) whose capacity is a `size_t` value,
`clear()` sets `head = 0`, `tail = 0` and `full_ = false`; afterwards `size() == 0`,
`empty()` holds and `available() == capacity()`, and the capacity and the storage are
unchanged. -/
theorem clear_resets (b : CircularBuffer T) (hc : b.capacity_ < SIZE_MOD) :
    b.clear.head = 0 ∧ b.clear.tail = 0 ∧ b.clear.full_ = false ∧ b.clear.size = 0 ∧
      b.clear.empty = true ∧ b.clear.available = b.clear.capacity ∧
      b.clear.capacity = b.capacity ∧ b.clear.capacity_ = b.capacity_ ∧
      b.clear.buffer = b.buffer := by
  have hs : b.clear.size = 0 := by
    simp only [size, clear, Bool.not_false, if_true, Nat.lt_irrefl, if_false]
    exact size_sub_eq (le_refl 0) (by rw [SIZE_MOD_eq]; omega)
  refine ⟨rfl, rfl, rfl, hs, rfl, ?_, rfl, rfl, rfl⟩
  unfold available
  rw [hs]
  exact size_sub_eq (Nat.zero_le _) hc

theorem clear_resets_witness :
    (4 < SIZE_MOD) ∧
    (clear (T := Nat)
        { buffer := [5, 6, 3, 4], head := 2, tail := 2, full_ := true, capacity_ := 4 }).head
      = 0 ∧
    (clear (T := Nat)
        { buffer := [5, 6, 3, 4], head := 2, tail := 2, full_ := true, capacity_ := 4 }).tail
      = 0 ∧
    (clear (T := Nat)
        { buffer := [5, 6, 3, 4], head := 2, tail := 2, full_ := true, capacity_ := 4 }).full_
      = false ∧
    (clear (T := Nat)
        { buffer := [5, 6, 3, 4], head := 2, tail := 2, full_ := true, capacity_ := 4 }).size
      = 0 ∧
    (clear (T := Nat)
        { buffer := [5, 6, 3, 4], head := 2, tail := 2, full_ := true, capacity_ := 4 }).empty
      = true ∧
    (clear (T := Nat)
        { buffer := [5, 6, 3, 4], head := 2, tail := 2, full_ := true, capacity_ := 4 }).available
      = (clear (T := Nat)
        { buffer := [5, 6, 3, 4], head := 2, tail := 2, full_ := true,
          capacity_ := 4 }).capacity ∧
    (clear (T := Nat)
        { buffer := [5, 6, 3, 4], head := 2, tail := 2, full_ := true, capacity_ := 4 }).capacity
      = capacity (T := Nat)
        { buffer := [5, 6, 3, 4], head := 2, tail := 2, full_ := true, capacity_ := 4 } ∧
    (clear (T := Nat)
        { buffer := [5, 6, 3, 4], head := 2, tail := 2, full_ := true, capacity_ := 4 }).capacity_
      = 4 ∧
    (clear (T := Nat)
        { buffer := [5, 6, 3, 4], head := 2, tail := 2, full_ := true, capacity_ := 4 }).buffer
      = [5, 6, 3, 4] :=
  ⟨by decide,
    clear_resets { buffer := [5, 6, 3, 4], head := 2, tail := 2, full_ := true, capacity_ := 4 }
      (by decide)⟩

end CircularBuffer

/-! ## The capacity check of the constructor -/

theorem land_pred_eq_zero_iff (n : Nat) (hn : 0 < n) :
    n &&& (n - 1) = 0 ↔ ∃ k, n = 2 ^ k := by
  induction n using Nat.strong_induction_on with
  | _ n ih =>
    have hdiv : (n &&& (n - 1)) / 2 = n / 2 &&& (n - 1) / 2 := Nat.and_div_two
    have hmod : (n &&& (n - 1)) % 2 = 1 ↔ n % 2 = 1 ∧ (n - 1) % 2 = 1 :=
      Nat.and_mod_two_eq_one
    rcases Nat.even_or_odd' n with ⟨m, rfl | rfl⟩
    · have hm : 0 < m := by omega
      have e1 : 2 * m / 2 = m := by omega
      have e2 : (2 * m - 1) / 2 = m - 1 := by omega
      rw [e1, e2] at hdiv
      have hx : ¬ ((2 * m &&& (2 * m - 1)) % 2 = 1) := by
        rw [hmod]
        omega
      constructor
      · intro h0
        have h1 : m &&& (m - 1) = 0 := by
          rw [← hdiv, h0]
        obtain ⟨k, hk⟩ := (ih m (by omega) hm).1 h1
        exact ⟨k + 1, by rw [hk, pow_succ]; ring⟩
      · rintro ⟨k, hk⟩
        cases k with
        | zero => omega
        | succ k =>
          have hm2 : m = 2 ^ k := by
            rw [pow_succ] at hk
            omega
          have h1 := (ih m (by omega) hm).2 ⟨k, hm2⟩
          omega
    · have e1 : (2 * m + 1) / 2 = m := by omega
      have e2 : (2 * m + 1 - 1) / 2 = m := by omega
      rw [e1, e2, Nat.and_self] at hdiv
      constructor
      · intro h0
        rw [h0] at hdiv
        exact ⟨0, by simp only [pow_zero]; omega⟩
      · rintro ⟨k, hk⟩
        cases k with
        | zero =>
          have hm0 : m = 0 := by
            simp only [pow_zero] at hk
            omega
          subst hm0
          rfl
        | succ k =>
          rw [pow_succ] at hk
          omega

namespace CircularBuffer

variable {T : Type}

/-- For a capacity other than 0, the assertion of the constructor passes exactly for the
powers of two. -/
theorem capacity_check_iff (C : Nat) (h0 : 0 < C) (hC : C < SIZE_MOD) :
    capacity_check C = true ↔ ∃ k, C = 2 ^ k := by
  unfold capacity_check size_and
  rw [size_sub_eq (by omega) hC, beq_iff_eq]
  exact land_pred_eq_zero_iff C h0

/-- C17 (capacity 0): the assertion `(capacity & (capacity - 1)) == 0` of the constructor
passes for capacity 0, which is not a power of two, and the constructor builds a buffer with
`capacity_ = 0`. -/
theorem capacity_zero_accepted :
    capacity_check 0 = true ∧
    create (T := Nat) 0 []
      = some { buffer := [], head := 0, tail := 0, full_ := false, capacity_ := 0 } ∧
    ¬ ∃ k, 0 = 2 ^ k := by
  refine ⟨by decide, by decide, ?_⟩
  rintro ⟨k, hk⟩
  have := Nat.pos_pow_of_pos k (show 0 < 2 by decide)
  omega

/-! ## Bulk push of no items -/

/-- In a well-formed state that is not empty, `push(src, 0)` changes nothing. -/
theorem WF.push_n_zero {b : CircularBuffer T} (h : b.WF) (he : b.empty = false)
    (src : List T) : b.push_n src 0 = some b := by
  have h2 := h.head_lt
  have hfe := h.full_eq
  rw [h.push_n_eq src (Nat.zero_le _)]
  simp only [Nat.zero_min, Nat.sub_self, read_range_zero, std_copy_nil, Nat.add_zero,
    Nat.mod_eq_of_lt h2]
  have hf : (b.head == b.tail) = b.full_ := by
    unfold empty at he
    cases hfull : b.full_
    · rw [hfull] at he
      simpa using he
    · rw [beq_iff_eq]
      exact hfe hfull
  rw [hf]

/-- C19 (the empty buffer): on a freshly constructed buffer of capacity 4, `push(src, 0)`
(and `push` of an empty span) passes its assertion and leaves `head`, `tail` and the storage
as they are, but sets `full_ = (head == tail) = true`: afterwards `size()` is 4 instead of
0, `empty()` is false and `available()` is 0 instead of 4. -/
theorem push_zero_of_empty_buffer :
    create 4 [0, 0, 0, 0]
      = some { buffer := [0, 0, 0, 0], head := 0, tail := 0, full_ := false, capacity_ := 4 } ∧
    WF (T := Nat)
      { buffer := [0, 0, 0, 0], head := 0, tail := 0, full_ := false, capacity_ := 4 } ∧
    (size (T := Nat)
        { buffer := [0, 0, 0, 0], head := 0, tail := 0, full_ := false, capacity_ := 4 } = 0 ∧
      empty (T := Nat)
        { buffer := [0, 0, 0, 0], head := 0, tail := 0, full_ := false, capacity_ := 4 }
        = true ∧
      available (T := Nat)
        { buffer := [0, 0, 0, 0], head := 0, tail := 0, full_ := false, capacity_ := 4 }
        = 4) ∧
    push_n (T := Nat)
        { buffer := [0, 0, 0, 0], head := 0, tail := 0, full_ := false, capacity_ := 4 } [] 0
      = some { buffer := [0, 0, 0, 0], head := 0, tail := 0, full_ := true, capacity_ := 4 } ∧
    push_span (T := Nat)
        { buffer := [0, 0, 0, 0], head := 0, tail := 0, full_ := false, capacity_ := 4 } []
      = some { buffer := [0, 0, 0, 0], head := 0, tail := 0, full_ := true, capacity_ := 4 } ∧
    (size (T := Nat)
        { buffer := [0, 0, 0, 0], head := 0, tail := 0, full_ := true, capacity_ := 4 } = 4 ∧
      empty (T := Nat)
        { buffer := [0, 0, 0, 0], head := 0, tail := 0, full_ := true, capacity_ := 4 }
        = false ∧
      available (T := Nat)
        { buffer := [0, 0, 0, 0], head := 0, tail := 0, full_ := true, capacity_ := 4 }
        = 0) :=
  ⟨by decide, ⟨⟨2, by decide, rfl⟩, rfl, by decide, by decide, by simp⟩,
    ⟨by decide, by decide, by decide⟩, by decide, by decide,
    ⟨by decide, by decide, by decide⟩⟩

end CircularBuffer

/-! ## Storage accesses stay inside the storage -/

theorem Span.inside_of_le {s : Span} {C : Nat} (h : s.start + s.length ≤ C) : s.inside C := by
  intro j _ h2
  omega

namespace CircularBuffer

variable {T : Type}

/-- C20: in a well-formed state, every storage index that an operation called within its
precondition reads or writes lies in `[0, capacity_)`: the slot of `push(item)`,
`pop(item)` and `peek`, the two copy ranges of `push(src, len)` and `pop(dest, len)`, the
slot of `operator[](i)`, and the ranges of both contiguous spans. -/
theorem accesses_in_bounds (b : CircularBuffer T) (hwf : b.WF) :
    (∀ s ∈ b.push_access, s.inside b.capacity_) ∧
      (∀ len, ∀ s ∈ b.push_n_access len, s.inside b.capacity_) ∧
      (∀ s ∈ b.pop_access, s.inside b.capacity_) ∧
      (∀ len, ∀ s ∈ b.pop_n_access len, s.inside b.capacity_) ∧
      (∀ s ∈ b.peek_access, s.inside b.capacity_) ∧
      (∀ i, ∀ s ∈ b.index_access i, s.inside b.capacity_) ∧
      b.available_as_contiguous_span.inside b.capacity_ ∧
      b.used_as_contiguous_span.inside b.capacity_ ∧
      b.buffer.length = b.capacity_ := by
  have h1 := hwf.cap_pos
  have h2 := hwf.head_lt
  have h3 := hwf.tail_lt
  have h4 := hwf.size_le
  have h5 := hwf.available_eq
  have hle := hwf.cap_le
  refine ⟨?_, ?_, ?_, ?_, ?_, ?_, ?_, ?_, hwf.len⟩
  · intro s hs
    unfold push_access at hs
    split at hs
    · rw [List.mem_singleton] at hs
      subst hs
      exact Span.inside_of_le (by simp only []; omega)
    · simp at hs
  · intro len s hs
    unfold push_n_access at hs
    have e1 : size_sub b.capacity_ b.head = b.capacity_ - b.head :=
      size_sub_eq (by omega) (by omega)
    have hm1 := Nat.min_le_left len (b.capacity_ - b.head)
    have hm2 := Nat.min_le_right len (b.capacity_ - b.head)
    split at hs
    · simp only [e1] at hs
      rw [size_sub_eq hm1 (by omega)] at hs
      split at hs
      · simp only [List.mem_cons, List.mem_singleton, List.not_mem_nil, or_false] at hs
        rcases hs with hs | hs <;> subst hs <;>
          exact Span.inside_of_le (by simp only []; omega)
      · rw [List.mem_singleton] at hs
        subst hs
        exact Span.inside_of_le (by simp only []; omega)
    · simp at hs
  · intro s hs
    unfold pop_access at hs
    split at hs
    · simp at hs
    · rw [List.mem_singleton] at hs
      subst hs
      exact Span.inside_of_le (by simp only []; omega)
  · intro len s hs
    unfold pop_n_access at hs
    have e1 : size_sub b.capacity_ b.tail = b.capacity_ - b.tail :=
      size_sub_eq (by omega) (by omega)
    have hm1 := Nat.min_le_left len (b.capacity_ - b.tail)
    have hm2 := Nat.min_le_right len (b.capacity_ - b.tail)
    split at hs
    · simp at hs
    · split at hs
      · simp only [e1] at hs
        rw [size_sub_eq hm1 (by omega)] at hs
        split at hs
        · simp only [List.mem_cons, List.mem_singleton, List.not_mem_nil, or_false] at hs
          rcases hs with hs | hs <;> subst hs <;>
            exact Span.inside_of_le (by simp only []; omega)
        · rw [List.mem_singleton] at hs
          subst hs
          exact Span.inside_of_le (by simp only []; omega)
      · simp at hs
  · intro s hs
    unfold peek_access at hs
    split at hs
    · rw [List.mem_singleton] at hs
      subst hs
      exact Span.inside_of_le (by simp only []; omega)
    · simp at hs
  · intro i s hs
    unfold index_access at hs
    rw [hwf.index_slot_eq] at hs
    split at hs
    · rename_i ix hix
      split at hix
      · rw [List.mem_singleton] at hs
        subst hs
        have := Nat.mod_lt (b.tail + i) h1
        simp only [Option.some.injEq] at hix
        exact Span.inside_of_le (by simp only []; omega)
      · cases hix
    · simp at hs
  · rw [hwf.available_span_eq]
    exact Span.inside_of_le (by simp only []; split_ifs <;> omega)
  · rw [hwf.used_span_eq]
    exact Span.inside_of_le (by simp only []; split_ifs <;> omega)

end CircularBuffer

/-! ## Shutdown and close of a connection -/

theorem socket_run_closed (ops : List SocketOp) :
    (socket_run .Closed ops).1 = .Closed := by
  induction ops with
  | nil => rfl
  | cons op ops ih =>
    cases op <;> exact ih

/-- C18: in the connection state machine of the specification, `close()` then `shutdown()`
and `shutdown()` then `close()` on an open connection, each followed by a repeat (of the
pair, or of each single call), report only success or "already closed" and end in `Closed`;
`shutdown` and `close` report a harmless result in every state; calling either twice leads
to the same state as calling it once; and no sequence of operations leaves `Closed`. -/
theorem shutdown_close_idempotence :
    socket_run .Open [.close, .shutdown, .close, .shutdown]
      = (.Closed, [.ok, .already_closed, .already_closed, .already_closed]) ∧
    socket_run .Open [.shutdown, .close, .shutdown, .close]
      = (.Closed, [.ok, .ok, .already_closed, .already_closed]) ∧
    socket_run .Open [.close, .close, .shutdown, .shutdown]
      = (.Closed, [.ok, .already_closed, .already_closed, .already_closed]) ∧
    socket_run .Open [.shutdown, .shutdown, .close, .close]
      = (.Closed, [.ok, .ok, .ok, .already_closed]) ∧
    (∀ s, (socket_step s .shutdown).2.harmless = true ∧
      (socket_step s .close).2.harmless = true) ∧
    (∀ s, (socket_step (socket_step s .shutdown).1 .shutdown).1 = (socket_step s .shutdown).1 ∧
      (socket_step (socket_step s .close).1 .close).1 = (socket_step s .close).1) ∧
    (∀ op, (socket_step .Closed op).1 = .Closed) ∧
    (∀ ops, (socket_run .Closed ops).1 = .Closed) := by
  refine ⟨rfl, rfl, rfl, rfl, ?_, ?_, ?_, socket_run_closed⟩
  · intro s
    cases s <;> exact ⟨rfl, rfl⟩
  · intro s
    cases s <;> exact ⟨rfl, rfl⟩
  · intro op
    cases op <;> rfl

namespace CircularBuffer

theorem accesses_in_bounds_witness :
    WF (T := Nat)
        { buffer := [9, 1, 2, 9], head := 3, tail := 1, full_ := false, capacity_ := 4 } ∧
    (push_n_access (T := Nat)
        { buffer := [9, 1, 2, 9], head := 3, tail := 1, full_ := false, capacity_ := 4 } 2
      = [{ start := 3, length := 1 }, { start := 0, length := 1 }] ∧
      pop_n_access (T := Nat)
        { buffer := [9, 1, 2, 9], head := 3, tail := 1, full_ := false, capacity_ := 4 } 2
      = [{ start := 1, length := 2 }]) ∧
    ((∀ s ∈ push_access (T := Nat)
          { buffer := [9, 1, 2, 9], head := 3, tail := 1, full_ := false, capacity_ := 4 },
        s.inside 4) ∧
      (∀ len, ∀ s ∈ push_n_access (T := Nat)
          { buffer := [9, 1, 2, 9], head := 3, tail := 1, full_ := false, capacity_ := 4 } len,
        s.inside 4) ∧
      (∀ s ∈ pop_access (T := Nat)
          { buffer := [9, 1, 2, 9], head := 3, tail := 1, full_ := false, capacity_ := 4 },
        s.inside 4) ∧
      (∀ len, ∀ s ∈ pop_n_access (T := Nat)
          { buffer := [9, 1, 2, 9], head := 3, tail := 1, full_ := false, capacity_ := 4 } len,
        s.inside 4) ∧
      (∀ s ∈ peek_access (T := Nat)
          { buffer := [9, 1, 2, 9], head := 3, tail := 1, full_ := false, capacity_ := 4 },
        s.inside 4) ∧
      (∀ i, ∀ s ∈ index_access (T := Nat)
          { buffer := [9, 1, 2, 9], head := 3, tail := 1, full_ := false, capacity_ := 4 } i,
        s.inside 4) ∧
      (available_as_contiguous_span (T := Nat)
          { buffer := [9, 1, 2, 9], head := 3, tail := 1, full_ := false,
            capacity_ := 4 }).inside 4 ∧
      (used_as_contiguous_span (T := Nat)
          { buffer := [9, 1, 2, 9], head := 3, tail := 1, full_ := false,
            capacity_ := 4 }).inside 4 ∧
      [9, 1, 2, 9].length = 4) :=
  ⟨⟨⟨2, by decide, rfl⟩, rfl, by decide, by decide, by simp⟩, ⟨by decide, by decide⟩,
    accesses_in_bounds
      { buffer := [9, 1, 2, 9], head := 3, tail := 1, full_ := false, capacity_ := 4 }
      ⟨⟨2, by decide, rfl⟩, rfl, by decide, by decide, by simp⟩⟩

end CircularBuffer

end ws_client
